import Mathlib

/-!
# AquaFuzzy Analytics — verification of the two numeric engines

Shallow embedding of the fuzzy-inference controller (source module
`fuzzy-logic`, the file defining `runFuzzyInference`) and of the fuzzy
C-means solver (source module defining `runFCM`), together with proofs
about the properties stated in the specification.

Modelling conventions:
* JS `number` is modelled exactly.  The inference controller only uses
  field arithmetic, `Math.abs`, `Math.min`/`Math.max` and `Math.round`,
  so it is embedded over `ℚ` (fully computable, so concrete runs can be
  settled with `decide`).  Source decimal literals such as `6.2` become
  the exact rationals (`31/5`), idealising IEEE rounding.
* The FCM solver uses `Math.sqrt` and `Math.pow` with non-integer
  exponents, so it is embedded over `ℝ` (`Real.sqrt`, real `rpow`).
* JS `Map` becomes an association list (`List (String × ℚ)`); insertion
  order and the first-match lookup agree with `Map` because every
  catalogue and rule table uses pairwise distinct keys.
* `throw new Error(...)` becomes `Except FCMError`; the three throw
  sites of the solver module get one constructor each.
* The `Math.random()` shuffle used for Forgy seeding is injected as an
  explicit `shuffled` argument (the specification requires the RNG to be
  injectable); theorems quantify over it as a permutation of the data.
* Purely presentational string fields (`explanation`, the
  `description` of a risk analysis) are omitted from the embedded
  records; no claim mentions them.
-/

set_option maxHeartbeats 1600000

/-- JS `Math.round`: round half away from minus infinity (half up). -/
def jsRound (q : ℚ) : ℤ := (q + 1/2).floor

/-- JS `Math.min(...)` over a spread array, for the nonempty lists the
source applies it to (`Math.min(...conditions)` with
`conditions.length > 0`). -/
def jsMinList : List ℚ → ℚ
  | [] => 0
  | x :: xs => xs.foldl min x

/-- JS `Math.max(...)` over a spread array, for nonempty lists
(`Math.max(...row)`).  On `[]` the source would give `-Infinity`; the
embedding never applies it to `[]`. -/
def jsMaxList : List ℚ → ℚ
  | [] => 0
  | x :: xs => xs.foldl max x

-- ═══════════════════════════════════════════════════════════════════
-- Fuzzy logic engine: types (source: TIPOS E INTERFACES)
-- ═══════════════════════════════════════════════════════════════════

/-- Raw water parameters (`WaterInputs`). -/
structure WaterInputs where
  turbidity : ℚ
  ph : ℚ
  temperature : ℚ
deriving DecidableEq

/-- `'none' | 'slight' | 'moderate' | 'intense'`. -/
inductive PhCorrection where
  | none | slight | moderate | intense
deriving DecidableEq

/-- `'optimal' | 'caution' | 'critical'`. -/
inductive RiskLevel where
  | optimal | caution | critical
deriving DecidableEq

/-- A trapezoidal fuzzy set; `points: [a, b, c, d]` becomes the four
fields `a b c d`. -/
structure TrapezoidalSet where
  name : String
  a : ℚ
  b : ℚ
  c : ℚ
  d : ℚ
deriving DecidableEq

/-- Antecedents of a rule: each of the three input variables may carry
the name of a linguistic set (`conditions.turbidity?` etc.). -/
structure RuleConditions where
  turbidity : Option String
  ph : Option String
  temperature : Option String
deriving DecidableEq

/-- Consequents of a rule. -/
structure RuleOutputs where
  dose : String
  time : String
  phCorrection : PhCorrection
deriving DecidableEq

/-- A fuzzy rule (`FuzzyRule`). -/
structure FuzzyRule where
  id : ℕ
  name : String
  conditions : RuleConditions
  outputs : RuleOutputs
  baseCost : ℚ
deriving DecidableEq

/-- Activation record of a fired rule (`RuleActivation`); the
`conditions`/`outputs` snapshots keep their structured type. -/
structure RuleActivation where
  id : ℕ
  name : String
  firingStrength : ℚ
  conditions : RuleConditions
  outputs : RuleOutputs
deriving DecidableEq

/-- Result record of the controller (`FuzzyOutputs`), minus the
presentational `explanation` string. -/
structure FuzzyOutputs where
  coagulantDose : ℚ
  flocculationTime : ℤ
  phCorrection : PhCorrection
  phCorrectionAmount : ℚ
  operationalCost : ℚ
  qualityScore : ℤ
  riskLevel : RiskLevel
  efficiency : ℤ
  ruleActivations : List RuleActivation
deriving DecidableEq

-- ═══════════════════════════════════════════════════════════════════
-- Fuzzy sets of the input variables
-- ═══════════════════════════════════════════════════════════════════

/-- `TURBIDITY_SETS` (NTU). -/
def TURBIDITY_SETS : List TrapezoidalSet :=
  [⟨"muy_baja", 0, 0, 5, 15⟩,
   ⟨"baja", 10, 20, 40, 60⟩,
   ⟨"media", 50, 80, 150, 200⟩,
   ⟨"alta", 150, 250, 400, 500⟩,
   ⟨"muy_alta", 400, 600, 1000, 1000⟩]

/-- `PH_SETS`. -/
def PH_SETS : List TrapezoidalSet :=
  [⟨"muy_acido", 0, 0, 4, (11/2 : ℚ)⟩,
   ⟨"acido", 5, (11/2 : ℚ), 6, (13/2 : ℚ)⟩,
   ⟨"neutro", (31/5 : ℚ), (34/5 : ℚ), (15/2 : ℚ), (41/5 : ℚ)⟩,
   ⟨"alcalino", (39/5 : ℚ), (17/2 : ℚ), 9, (19/2 : ℚ)⟩,
   ⟨"muy_alcalino", 9, 10, 14, 14⟩]

/-- `TEMPERATURE_SETS` (°C). -/
def TEMPERATURE_SETS : List TrapezoidalSet :=
  [⟨"fria", 0, 0, 10, 18⟩,
   ⟨"normal", 15, 20, 25, 28⟩,
   ⟨"calida", 25, 30, 40, 40⟩]

/-- `DOSE_SETS` (mg/L of coagulant). -/
def DOSE_SETS : List TrapezoidalSet :=
  [⟨"muy_baja", 0, 0, 5, 12⟩,
   ⟨"baja", 8, 15, 22, 28⟩,
   ⟨"media", 25, 35, 45, 55⟩,
   ⟨"alta", 50, 60, 75, 85⟩,
   ⟨"muy_alta", 80, 90, 100, 100⟩]

/-- `TIME_SETS` (minutes of flocculation). -/
def TIME_SETS : List TrapezoidalSet :=
  [⟨"muy_corto", 0, 0, 8, 12⟩,
   ⟨"corto", 10, 14, 18, 22⟩,
   ⟨"medio", 20, 25, 32, 38⟩,
   ⟨"largo", 35, 42, 50, 55⟩,
   ⟨"muy_largo", 50, 55, 60, 60⟩]

-- ═══════════════════════════════════════════════════════════════════
-- Membership functions
-- ═══════════════════════════════════════════════════════════════════

/-- `calculateMembership(value, set)`: the source`s exact cascade of
guards (`value <= a || value >= d`, the plateau, then the two ramps). -/
def calculateMembership (value : ℚ) (s : TrapezoidalSet) : ℚ :=
  if value ≤ s.a ∨ value ≥ s.d then 0
  else if value ≥ s.b ∧ value ≤ s.c then 1
  else if value > s.a ∧ value < s.b then (value - s.a) / (s.b - s.a)
  else if value > s.c ∧ value < s.d then (s.d - value) / (s.d - s.c)
  else 0

/-- Division-guarded variant of `calculateMembership`: identical control
flow, but returns `Option.none` whenever a ramp branch would divide by a
zero denominator.  Used to state that no evaluation of the source
function divides by zero. -/
def calculateMembershipChecked (value : ℚ) (s : TrapezoidalSet) : Option ℚ :=
  if value ≤ s.a ∨ value ≥ s.d then some 0
  else if value ≥ s.b ∧ value ≤ s.c then some 1
  else if value > s.a ∧ value < s.b then
    (if s.b - s.a = 0 then Option.none else some ((value - s.a) / (s.b - s.a)))
  else if value > s.c ∧ value < s.d then
    (if s.d - s.c = 0 then Option.none else some ((s.d - value) / (s.d - s.c)))
  else some 0

/-- `getMemberships(value, sets)`: the `Map` of set name to degree, as
an association list in catalogue order (all catalogue names are
pairwise distinct, so `Map.set` insertion equals appending). -/
def getMemberships (value : ℚ) (sets : List TrapezoidalSet) : List (String × ℚ) :=
  sets.map fun s => (s.name, calculateMembership value s)

/-- `map.get(key) || 0`: first-match lookup with default `0` (a stored
`0` is falsy in JS and also yields `0`, so the defaulting agrees). -/
def mapGetD : List (String × ℚ) → String → ℚ
  | [], _ => 0
  | (k, v) :: rest, key => if k = key then v else mapGetD rest key

/-- `map.set(key, v)`: replace the first binding of `key` in place, or
append a new binding (JS `Map` keeps insertion order). -/
def mapSet : List (String × ℚ) → String → ℚ → List (String × ℚ)
  | [], key, v => [(key, v)]
  | (k, w) :: rest, key, v =>
      if k = key then (key, v) :: rest else (k, w) :: mapSet rest key v

-- ═══════════════════════════════════════════════════════════════════
-- Rule base (`FUZZY_RULES`)
-- ═══════════════════════════════════════════════════════════════════

/-- The fixed 20-rule base, in source order. -/
def FUZZY_RULES : List FuzzyRule :=
  [⟨1, "Agua cristalina - Condiciones optimas",
    ⟨some "muy_baja", some "neutro", Option.none⟩,
    ⟨"muy_baja", "muy_corto", .none⟩, (5/100 : ℚ)⟩,
   ⟨2, "Agua limpia - pH acido leve",
    ⟨some "muy_baja", some "acido", Option.none⟩,
    ⟨"baja", "corto", .slight⟩, (8/100 : ℚ)⟩,
   ⟨3, "Agua limpia - pH alcalino leve",
    ⟨some "muy_baja", some "alcalino", Option.none⟩,
    ⟨"baja", "corto", .slight⟩, (8/100 : ℚ)⟩,
   ⟨4, "Agua baja turbidez - Condiciones normales",
    ⟨some "baja", some "neutro", Option.none⟩,
    ⟨"baja", "corto", .none⟩, (10/100 : ℚ)⟩,
   ⟨5, "Turbidez media - pH neutro optimo",
    ⟨some "media", some "neutro", Option.none⟩,
    ⟨"media", "medio", .none⟩, (18/100 : ℚ)⟩,
   ⟨6, "Turbidez media - pH acido",
    ⟨some "media", some "acido", Option.none⟩,
    ⟨"media", "medio", .moderate⟩, (22/100 : ℚ)⟩,
   ⟨7, "Turbidez media - pH alcalino",
    ⟨some "media", some "alcalino", Option.none⟩,
    ⟨"alta", "medio", .slight⟩, (24/100 : ℚ)⟩,
   ⟨8, "Turbidez media - Agua fria",
    ⟨some "media", Option.none, some "fria"⟩,
    ⟨"alta", "largo", .none⟩, (25/100 : ℚ)⟩,
   ⟨9, "Alta turbidez - pH neutro",
    ⟨some "alta", some "neutro", Option.none⟩,
    ⟨"alta", "largo", .none⟩, (35/100 : ℚ)⟩,
   ⟨10, "Alta turbidez - pH acido",
    ⟨some "alta", some "acido", Option.none⟩,
    ⟨"alta", "largo", .moderate⟩, (42/100 : ℚ)⟩,
   ⟨11, "Alta turbidez - pH alcalino",
    ⟨some "alta", some "alcalino", Option.none⟩,
    ⟨"muy_alta", "largo", .moderate⟩, (45/100 : ℚ)⟩,
   ⟨12, "Alta turbidez - Agua fria",
    ⟨some "alta", Option.none, some "fria"⟩,
    ⟨"muy_alta", "muy_largo", .none⟩, (48/100 : ℚ)⟩,
   ⟨13, "Emergencia - Turbidez extrema, pH neutro",
    ⟨some "muy_alta", some "neutro", Option.none⟩,
    ⟨"muy_alta", "muy_largo", .none⟩, (55/100 : ℚ)⟩,
   ⟨14, "Emergencia - Turbidez extrema, pH acido severo",
    ⟨some "muy_alta", some "muy_acido", Option.none⟩,
    ⟨"muy_alta", "muy_largo", .intense⟩, (75/100 : ℚ)⟩,
   ⟨15, "Emergencia - Turbidez extrema, pH alcalino severo",
    ⟨some "muy_alta", some "muy_alcalino", Option.none⟩,
    ⟨"muy_alta", "muy_largo", .intense⟩, (72/100 : ℚ)⟩,
   ⟨16, "Vertido acido - Turbidez baja",
    ⟨some "baja", some "muy_acido", Option.none⟩,
    ⟨"media", "medio", .intense⟩, (38/100 : ℚ)⟩,
   ⟨17, "Vertido alcalino - Turbidez baja",
    ⟨some "baja", some "muy_alcalino", Option.none⟩,
    ⟨"media", "medio", .intense⟩, (35/100 : ℚ)⟩,
   ⟨18, "Vertido acido - Turbidez media",
    ⟨some "media", some "muy_acido", Option.none⟩,
    ⟨"alta", "largo", .intense⟩, (52/100 : ℚ)⟩,
   ⟨19, "Agua caliente - Turbidez baja",
    ⟨some "baja", Option.none, some "calida"⟩,
    ⟨"baja", "muy_corto", .none⟩, (8/100 : ℚ)⟩,
   ⟨20, "Agua caliente - Turbidez alta",
    ⟨some "alta", Option.none, some "calida"⟩,
    ⟨"media", "medio", .none⟩, (28/100 : ℚ)⟩]

-- ═══════════════════════════════════════════════════════════════════
-- Inference system
-- ═══════════════════════════════════════════════════════════════════

/-- `defuzzify(activations, sets)`: centre-of-area over the plateau
centres `(b+c)/2`, skipping sets with non-positive activation, with the
`denominator > 0` guard. -/
def defuzzify (activations : List (String × ℚ)) (sets : List TrapezoidalSet) : ℚ :=
  let nd := sets.foldl
    (fun (p : ℚ × ℚ) s =>
      let activation := mapGetD activations s.name
      if activation > 0 then
        (p.1 + (s.b + s.c) / 2 * activation, p.2 + activation)
      else p)
    (0, 0)
  if nd.2 > 0 then nd.1 / nd.2 else 0

/-- The degrees of the conditions present in a rule, in source push
order (turbidity, then ph, then temperature); absent conditions are
omitted. -/
def ruleConditionDegrees (conds : RuleConditions)
    (tm pm cm : List (String × ℚ)) : List ℚ :=
  (match conds.turbidity with
   | some n => [mapGetD tm n]
   | Option.none => []) ++
  (match conds.ph with
   | some n => [mapGetD pm n]
   | Option.none => []) ++
  (match conds.temperature with
   | some n => [mapGetD cm n]
   | Option.none => [])

/-- Firing strength of a rule:
`conditions.length > 0 ? Math.min(...conditions) : 0`. -/
def ruleActivationDegree (r : FuzzyRule)
    (tm pm cm : List (String × ℚ)) : ℚ :=
  jsMinList (ruleConditionDegrees r.conditions tm pm cm)

/-- Mutable state of the rule-evaluation loop of `runFuzzyInference`. -/
structure InferState where
  doseActs : List (String × ℚ)
  timeActs : List (String × ℚ)
  totalCost : ℚ
  totalWeight : ℚ
  phLevel : PhCorrection
  maxPhW : ℚ
  ruleActs : List RuleActivation
deriving DecidableEq

/-- Initial loop state (empty maps, `totalCost = totalWeight = 0`,
`phCorrectionLevel = 'none'`, `maxPhCorrectionWeight = 0`). -/
def initInferState : InferState := ⟨[], [], 0, 0, .none, 0, []⟩

/-- One pass of the `for (const rule of FUZZY_RULES)` loop. -/
def inferStep (tm pm cm : List (String × ℚ))
    (st : InferState) (r : FuzzyRule) : InferState :=
  let activation := ruleActivationDegree r tm pm cm
  if activation > 0 then
    { doseActs := mapSet st.doseActs r.outputs.dose
        (max (mapGetD st.doseActs r.outputs.dose) activation)
      timeActs := mapSet st.timeActs r.outputs.time
        (max (mapGetD st.timeActs r.outputs.time) activation)
      totalCost := st.totalCost + r.baseCost * activation
      totalWeight := st.totalWeight + activation
      phLevel := if activation > st.maxPhW then r.outputs.phCorrection else st.phLevel
      maxPhW := if activation > st.maxPhW then activation else st.maxPhW
      ruleActs := st.ruleActs ++
        [⟨r.id, r.name, activation, r.conditions, r.outputs⟩] }
  else st

/-- The rule-evaluation loop over the whole rule base. -/
def fuzzyInferState (i : WaterInputs) : InferState :=
  FUZZY_RULES.foldl
    (inferStep (getMemberships i.turbidity TURBIDITY_SETS)
      (getMemberships i.ph PH_SETS)
      (getMemberships i.temperature TEMPERATURE_SETS))
    initInferState

/-- The defuzzified coagulant dose before output rounding (local
`coagulantDose` of `runFuzzyInference`). -/
def rawCoagulantDose (i : WaterInputs) : ℚ :=
  defuzzify (fuzzyInferState i).doseActs DOSE_SETS

/-- `runFuzzyInference(inputs)`.  `ruleActivations.sort((a, b) =>
b.firingStrength - a.firingStrength)` is a stable descending sort,
embedded with the stable `List.mergeSort`. -/
def runFuzzyInference (i : WaterInputs) : FuzzyOutputs :=
  let st := fuzzyInferState i
  let coagulantDose := rawCoagulantDose i
  let flocculationTime := defuzzify st.timeActs TIME_SETS
  let operationalCost := if st.totalWeight > 0 then st.totalCost / st.totalWeight else (10/100 : ℚ)
  let phCorrectionAmount : ℚ :=
    match st.phLevel with
    | .none => 0
    | .slight => |i.ph - 7| * 5
    | .moderate => |i.ph - 7| * 12
    | .intense => |i.ph - 7| * 25
  let turbidityFactor := max 0 (100 - i.turbidity / 10)
  let phFactor := max 0 (100 - |i.ph - 7| * 15)
  -- `coagulantDose > 0 ? Math.min(100, (coagulantDose / turbidity) * 500) : 50`;
  -- in JS a positive dose over `turbidity = 0` gives `Infinity`, and
  -- `Math.min(100, Infinity) = 100`, hence the inner guard.
  let processFactor :=
    if coagulantDose > 0 then
      (if i.turbidity = 0 then 100 else min 100 (coagulantDose / i.turbidity * 500))
    else 50
  let riskLevel : RiskLevel :=
    if i.turbidity > 400 ∨ i.ph < (11/2 : ℚ) ∨ i.ph > (19/2 : ℚ) then .critical
    else if i.turbidity > 150 ∨ i.ph < (31/5 : ℚ) ∨ i.ph > (17/2 : ℚ) then .caution
    else .optimal
  let efficiency := min 100 (max 20
    (100 - i.turbidity / 20 + (if (13/2 : ℚ) ≤ i.ph ∧ i.ph ≤ 8 then 20 else 0)
      - (if i.temperature < 15 then 10 else 0)))
  { coagulantDose := (jsRound (coagulantDose * 10) : ℚ) / 10
    flocculationTime := jsRound flocculationTime
    phCorrection := st.phLevel
    phCorrectionAmount := (jsRound (phCorrectionAmount * 10) : ℚ) / 10
    operationalCost := (jsRound (operationalCost * 1000) : ℚ) / 1000
    qualityScore := max 0 (min 100 (jsRound (turbidityFactor * (5/10 : ℚ) + phFactor * (3/10 : ℚ) + processFactor * (2/10 : ℚ))))
    riskLevel := riskLevel
    efficiency := jsRound efficiency
    ruleActivations := st.ruleActs.mergeSort fun x y => y.firingStrength ≤ x.firingStrength }

-- ═══════════════════════════════════════════════════════════════════
-- Cluster analytics: `analyzeRisk` (source FCM module, pure ℚ part)
-- ═══════════════════════════════════════════════════════════════════

/-- `CLUSTER_NAMES` (display names of the machine states). -/
def CLUSTER_NAMES : List String :=
  ["Normal", "Alerta", "Precaucion", "Degradacion", "Falla Inminente"]

/-- `'low' | 'medium' | 'high' | 'critical'`. -/
inductive RiskCategory where
  | low | medium | high | critical
deriving DecidableEq

/-- Result of `analyzeRisk`, minus the presentational `description`
string (built from `clusterNames`, display only). -/
structure RiskAnalysis where
  riskScore : ℤ
  riskCategory : RiskCategory
  dominantCluster : ℕ
  recommendation : String
deriving DecidableEq

/-- `analyzeRisk(memberships, clusterNames)`.  The `clusterNames`
argument (source default `CLUSTER_NAMES`) only feeds the omitted
`description`, so it is unused here.  `memberships[i] || 0` becomes
`getD i 0`; the category is bucketed from the unclamped score and the
returned score is `Math.min(100, riskScore)`. -/
def analyzeRisk (memberships : List ℚ) (_clusterNames : List String) : RiskAnalysis :=
  let failureIndex := memberships.length - 1
  let alertIndex := if memberships.length > 2 then memberships.length - 2 else 0
  let riskScore :=
    jsRound ((memberships.getD alertIndex 0) * 40 + (memberships.getD failureIndex 0) * 100)
  { riskScore := min 100 riskScore
    riskCategory :=
      if riskScore < 20 then .low
      else if riskScore < 45 then .medium
      else if riskScore < 70 then .high
      else .critical
    dominantCluster := memberships.indexOf (jsMaxList memberships)
    recommendation :=
      if riskScore < 20 then "Operacion normal. Continuar monitoreo estandar."
      else if riskScore < 45 then "Programar inspeccion preventiva en las proximas semanas."
      else if riskScore < 70 then "Requiere inspeccion urgente. Considerar reducir carga operativa."
      else "ACCION INMEDIATA: Programar mantenimiento correctivo antes de falla." }

-- ═══════════════════════════════════════════════════════════════════
-- Specification-side definitions (for refinement comparisons)
-- ═══════════════════════════════════════════════════════════════════

/-- The quality score exactly as claim C2 words it: `round(0.5·tf +
0.3·pf + 0.2·procf)` clamped to `[0,100]`, with the fixed-midpoint
fallback selected by `turbidity > 0`. -/
def claimQualityScore (i : WaterInputs) : ℤ :=
  let tf := max 0 (100 - i.turbidity / 10)
  let pf := max 0 (100 - |i.ph - 7| * 15)
  let procf :=
    if i.turbidity > 0 then min 100 (rawCoagulantDose i / i.turbidity * 500) else 50
  max 0 (min 100 (jsRound ((5/10 : ℚ) * tf + (3/10 : ℚ) * pf + (2/10 : ℚ) * procf)))

/-- The quality score with the guard the code actually uses: the
fallback `50` is selected by `coagulantDose > 0`, not `turbidity > 0`
(amended claim C2). -/
def claimQualityScoreAmended (i : WaterInputs) : ℤ :=
  let tf := max 0 (100 - i.turbidity / 10)
  let pf := max 0 (100 - |i.ph - 7| * 15)
  let procf :=
    if 0 < rawCoagulantDose i then min 100 (rawCoagulantDose i / i.turbidity * 500) else 50
  max 0 (min 100 (jsRound ((5/10 : ℚ) * tf + (3/10 : ℚ) * pf + (2/10 : ℚ) * procf)))

/-- Largest firing strength over the whole rule base (0 when no rule
fires), phrased independently of the evaluation loop. -/
def maxFiringStrength (i : WaterInputs) : ℚ :=
  (FUZZY_RULES.map fun r =>
    ruleActivationDegree r (getMemberships i.turbidity TURBIDITY_SETS)
      (getMemberships i.ph PH_SETS)
      (getMemberships i.temperature TEMPERATURE_SETS)).foldl max 0

/-- The dominant pH-correction level as the specification describes it:
the `phCorrection` of the first rule (in rule-base order) attaining the
maximal firing strength, when that maximum is positive; `'none'`
otherwise. -/
def specDominantPhLevel (i : WaterInputs) : PhCorrection :=
  if 0 < maxFiringStrength i then
    match FUZZY_RULES.find? (fun r =>
      decide (ruleActivationDegree r (getMemberships i.turbidity TURBIDITY_SETS)
        (getMemberships i.ph PH_SETS)
        (getMemberships i.temperature TEMPERATURE_SETS) = maxFiringStrength i)) with
    | some r => r.outputs.phCorrection
    | Option.none => .none
  else .none

/-- The projection of one rule-loop pass onto the pair
`(maxPhCorrectionWeight, phCorrectionLevel)`: these two locals are
updated exactly when the rule fires (`activation > 0`) and strictly
beats the running maximum. -/
def domPair (tm pm cm : List (String × ℚ)) (wl : ℚ × PhCorrection) (r : FuzzyRule) :
    ℚ × PhCorrection :=
  if 0 < ruleActivationDegree r tm pm cm ∧ wl.1 < ruleActivationDegree r tm pm cm then
    (ruleActivationDegree r tm pm cm, r.outputs.phCorrection)
  else wl

-- ═══════════════════════════════════════════════════════════════════
-- FCM solver (source FCM module), over ℝ
-- ═══════════════════════════════════════════════════════════════════

noncomputable section

/-- `DataPoint`: id, feature vector, optional label.  The optional
`timestamp`, `memberships` and `color` fields are attached only by the
UI store after a run and are not read by the solver, so they are not
modelled. -/
structure DataPoint where
  id : String
  features : List ℝ
  label : Option String

/-- `FCMConfig`.  The two counts are JS numbers used only as sizes and
loop bounds, hence `ℕ`. -/
structure FCMConfig where
  clusterCount : ℕ
  fuzziness : ℝ
  maxIterations : ℕ
  tolerance : ℝ
  trackHistory : Bool

/-- `IterationState`: one history snapshot. -/
structure IterationState where
  iteration : ℕ
  centroids : List (List ℝ)
  membershipMatrix : List (List ℝ)
  convergenceError : ℝ
  objectiveFunction : ℝ

/-- `FCMResult`. -/
structure FCMResult where
  centroids : List (List ℝ)
  membershipMatrix : List (List ℝ)
  iterationHistory : List IterationState
  convergenceError : ℝ
  iterationCount : ℕ
  clusterAssignments : List ℕ
  converged : Bool

/-- The solver module has exactly three `throw new Error(...)` sites:
the two input guards of `runFCM` and the dimension check of
`euclideanDistance`. -/
inductive FCMError where
  | emptyData
  | tooManyClusters
  | dimMismatch (n1 n2 : ℕ)
deriving DecidableEq

/-- The `InvalidInput` kind of the specification error taxonomy: the two
guard failures of `runFCM`. -/
def FCMError.isInvalidInput : FCMError → Bool
  | .emptyData => true
  | .tooManyClusters => true
  | .dimMismatch _ _ => false

/-- `euclideanDistance(p1, p2)`: throws on length mismatch, otherwise
`Math.sqrt` of the sum of squared coordinate differences (the source
`reduce` over `p1` indices equals the `zip` sum once lengths agree). -/
def euclideanDistance (p1 p2 : List ℝ) : Except FCMError ℝ :=
  if p1.length = p2.length then
    .ok (Real.sqrt (((p1.zip p2).map fun q => (q.1 - q.2) ^ 2).sum))
  else .error (.dimMismatch p1.length p2.length)

/-- `Math.max(...row)` for the nonempty rows the source applies it to
(on `[]` JS would give `-Infinity` and `indexOf` then `-1`; rows are
nonempty whenever `clusterCount ≥ 1`). -/
def jsMaxArr : List ℝ → ℝ
  | [] => 0
  | x :: xs => xs.foldl max x

/-- Net effect of the membership-update inner loop when some distance is
zero: the `break` at the first zero distance overwrites the row with
`Array(k).fill(0)` and a single `1` at that index, while entries at
earlier indices were already forced to `0` by the `Infinity` branch. -/
def onehotFirstZero : List ℝ → List ℝ
  | [] => []
  | d :: rest => if d = 0 then 1 :: List.replicate rest.length 0 else 0 :: onehotFirstZero rest

/-- The defensive renormalisation after the row update: divide by the
row sum when it is positive (`if (sum > 0)`). -/
def normalizeRow (row : List ℝ) : List ℝ :=
  if row.sum > 0 then row.map fun v => v / row.sum else row

/-- The raw membership row for one point, before renormalisation: a
one-hot row when some distance is zero, otherwise
`μ_j = 1 / Σ_l (d_j/d_l)^p` with `p = 2/(m-1)` (real `rpow`, the
embedding of `Math.pow`). -/
def fcmRawRow (dists : List ℝ) (p : ℝ) : List ℝ :=
  if (0:ℝ) ∈ dists then onehotFirstZero dists
  else dists.map fun dj => 1 / (dists.map fun dl => (dj / dl) ^ p).sum

/-- Membership update for one point (`Paso 2` of the source loop). -/
def fcmRow (dists : List ℝ) (p : ℝ) : List ℝ :=
  normalizeRow (fcmRawRow dists p)

/-- `Paso 3`: new centroid `j` is the `(μ_ij)^m`-weighted mean of the
points, coordinates left unchanged when the weight sum is not positive.
`memberships[i][j]` and `features[d]` become `getD` (indices are always
in range in reachable states). -/
def updateCentroids (feats mem : List (List ℝ)) (m : ℝ) (k dim : ℕ) : List (List ℝ) :=
  (List.range k).map fun j =>
    let ws := mem.map fun row => (row.getD j 0) ^ m
    let wsum := ws.sum
    let cent := (List.range dim).map fun dd =>
      ((feats.zip ws).map fun fw => fw.2 * (fw.1.getD dd 0)).sum
    cent.map fun v => if wsum > 0 then v / wsum else v

/-- `Paso 4`: `maxChange = max_{i,j} |μ_ij − μ_ij^prev|`, accumulated
from `0` (the two matrices always have identical shape when this is
called). -/
def maxChangeVal (mem prev : List (List ℝ)) : ℝ :=
  ((mem.zip prev).map fun rp =>
    ((rp.1.zip rp.2).map fun ab => |ab.1 - ab.2|).foldl max 0).foldl max 0

/-- `calculateObjectiveFunction`: `J = Σ_i Σ_j (μ_ij)^m · d(x_i,c_j)²`
(`Math.pow(distance, 2)` is the square). -/
def calculateObjectiveFunction (feats cents mem : List (List ℝ)) (m : ℝ) :
    Except FCMError ℝ :=
  ((feats.zip mem).mapM fun fr =>
    (cents.mapM (euclideanDistance fr.1)).map fun ds =>
      ((ds.zip fr.2).map fun dmu => dmu.2 ^ m * dmu.1 ^ 2).sum).map fun rows => rows.sum

/-- The mutable state of the `while` loop of `runFCM`.  `lastMaxChange`
is the local variable `maxChange` of the last executed iteration. -/
structure LoopState where
  memberships : List (List ℝ)
  centroids : List (List ℝ)
  prevMemberships : List (List ℝ)
  history : List IterationState
  iteration : ℕ
  converged : Bool
  lastMaxChange : ℝ

/-- One pass of the `while` loop: membership update, centroid update,
convergence check, optional history snapshot, then
`prevMemberships := memberships` and `iteration++`. -/
def fcmStep (feats : List (List ℝ)) (cfg : FCMConfig) (st : LoopState) :
    Except FCMError LoopState :=
  (feats.mapM fun f =>
    (st.centroids.mapM (euclideanDistance f)).map fun dists =>
      fcmRow dists (2 / (cfg.fuzziness - 1))) >>= fun newMem =>
  (if cfg.trackHistory then
    (calculateObjectiveFunction feats
        (updateCentroids feats newMem cfg.fuzziness cfg.clusterCount (feats.headD []).length)
        newMem cfg.fuzziness).map fun J =>
      st.history ++ [⟨st.iteration,
        updateCentroids feats newMem cfg.fuzziness cfg.clusterCount (feats.headD []).length,
        newMem, maxChangeVal newMem st.prevMemberships, J⟩]
  else .ok st.history) >>= fun hist =>
  .ok ⟨newMem,
    updateCentroids feats newMem cfg.fuzziness cfg.clusterCount (feats.headD []).length,
    newMem, hist, st.iteration + 1,
    if maxChangeVal newMem st.prevMemberships < cfg.tolerance then true else false,
    maxChangeVal newMem st.prevMemberships⟩

/-- `while (iteration < maxIterations && !converged)`, with the
remaining iteration budget as structural fuel. -/
def fcmLoop (feats : List (List ℝ)) (cfg : FCMConfig) :
    ℕ → LoopState → Except FCMError LoopState
  | 0, st => .ok st
  | fuel + 1, st =>
    if st.converged then .ok st
    else fcmStep feats cfg st >>= fun st2 => fcmLoop feats cfg fuel st2

/-- Forgy seeding (source `initializeCentroids`): the first `k` feature
vectors of the shuffled data, copied (`[...p.features]`).  The
`Math.random()` shuffle itself is the injected `shuffled` argument. -/
def initCentroids (shuffled : List DataPoint) (k : ℕ) : List (List ℝ) :=
  (shuffled.take k).map fun pt => pt.features

/-- The loop of `runFCM` from its initial state: uniform membership rows
`[1/k, …, 1/k]`, seeded centroids, empty history, `iteration = 0`,
`converged = false`. -/
def runFCMLoop (data : List DataPoint) (cfg : FCMConfig) (shuffled : List DataPoint) :
    Except FCMError LoopState :=
  let mem0 := data.map fun _ => List.replicate cfg.clusterCount ((1:ℝ) / cfg.clusterCount)
  fcmLoop (data.map fun pt => pt.features) cfg cfg.maxIterations
    ⟨mem0, initCentroids shuffled cfg.clusterCount, mem0, [], 0, false, 0⟩

/-- Assembling the `FCMResult` from the final loop state, including the
`finalError` computation (`trackHistory && history.length > 0 ?
history[last].convergenceError : 0`) and the cluster assignments
`row.indexOf(Math.max(...row))`. -/
def mkFCMResult (cfg : FCMConfig) (st : LoopState) : FCMResult :=
  { centroids := st.centroids
    membershipMatrix := st.memberships
    iterationHistory := st.history
    convergenceError :=
      if cfg.trackHistory then ((st.history.getLast?).map fun e => e.convergenceError).getD 0
      else 0
    iterationCount := st.iteration
    clusterAssignments := st.memberships.map fun row => row.indexOf (jsMaxArr row)
    converged := st.converged }

/-- `runFCM(data, config)` with the RNG shuffle injected: the two
`InvalidInput` guards, then the iterative loop. -/
def runFCM (data : List DataPoint) (cfg : FCMConfig) (shuffled : List DataPoint) :
    Except FCMError FCMResult :=
  if data.length = 0 then .error .emptyData
  else if cfg.clusterCount > data.length then .error .tooManyClusters
  else (runFCMLoop data cfg shuffled).map (mkFCMResult cfg)

/-- Whether a solver outcome is an `InvalidInput`-kind failure. -/
def isInvalidInputResult (r : Except FCMError FCMResult) : Bool :=
  match r with
  | .error e => e.isInvalidInput
  | .ok _ => false

/-- A membership row summing to 1 within `1e-9`, all entries in
`[0,1]` (the row invariant of claim C1). -/
def rowNormalized (row : List ℝ) : Prop :=
  |row.sum - 1| ≤ 1 / 1000000000 ∧ ∀ x ∈ row, 0 ≤ x ∧ x ≤ 1

/-- All rows of a membership matrix are normalized. -/
def matrixNormalized (mat : List (List ℝ)) : Prop :=
  ∀ row ∈ mat, rowNormalized row

/-- The exact-arithmetic row invariant maintained by the solver loop:
every row sums to exactly 1 with entries in `[0,1]`. -/
def matrixStochastic (mat : List (List ℝ)) : Prop :=
  ∀ row ∈ mat, row.sum = 1 ∧ ∀ x ∈ row, 0 ≤ x ∧ x ≤ 1

/-- A concrete two-point data set on the line, used to exercise the
solver at `k = 2`. -/
def dataC3 : List DataPoint :=
  [⟨"p0", [0], none⟩, ⟨"p1", [2], none⟩]

/-- A configuration with history tracking off: `k = 2`, `m = 2`, one
iteration, tolerance `0.001`. -/
def cfgC3 : FCMConfig :=
  ⟨2, 2, 1, 1/1000, false⟩

/-- The initial loop state of `runFCM` on `dataC3`/`cfgC3`: uniform
`1/2` memberships, the two points as seeds. -/
def st0C3 : LoopState :=
  ⟨[[1/2, 1/2], [1/2, 1/2]], [[0], [2]], [[1/2, 1/2], [1/2, 1/2]], [], 0, false, 0⟩

/-- The loop state after the single iteration of `runFCM` on
`dataC3`/`cfgC3`: crisp memberships (each point has a zero distance to
one seed), `maxChange = 1/2`, not converged. -/
def st1C3 : LoopState :=
  ⟨[[1, 0], [0, 1]],
   updateCentroids [[0], [2]] [[1, 0], [0, 1]] cfgC3.fuzziness cfgC3.clusterCount
     (([[0], [2]] : List (List ℝ)).headD []).length,
   [[1, 0], [0, 1]], [], 1, false, 1/2⟩

end

-- ═══════════════════════════════════════════════════════════════════
-- Helper lemmas: rounding, minima, membership maps
-- ═══════════════════════════════════════════════════════════════════

theorem jsRound_floor (q : ℚ) : jsRound q = ⌊q + 1/2⌋ := rfl

theorem jsRound_eq_of (q : ℚ) (z : ℤ) (h1 : (z : ℚ) ≤ q + 1/2) (h2 : q + 1/2 < z + 1) :
    jsRound q = z := by
  rw [jsRound_floor]
  exact Int.floor_eq_iff.mpr ⟨h1, by exact_mod_cast h2⟩

theorem foldl_min_le_init (xs : List ℚ) (a : ℚ) : xs.foldl min a ≤ a := by
  induction xs generalizing a with
  | nil => simp
  | cons x xs ih => exact le_trans (ih (min a x)) (min_le_left a x)

theorem foldl_min_le_mem {xs : List ℚ} {y : ℚ} (a : ℚ) (hy : y ∈ xs) : xs.foldl min a ≤ y := by
  induction xs generalizing a with
  | nil => cases hy
  | cons x xs ih =>
    rcases List.mem_cons.mp hy with h | h
    · subst h
      exact le_trans (foldl_min_le_init xs (min a y)) (min_le_right a y)
    · exact ih (min a x) h

theorem jsMinList_le_of_mem {l : List ℚ} {y : ℚ} (hy : y ∈ l) : jsMinList l ≤ y := by
  cases l with
  | nil => cases hy
  | cons x xs =>
    rcases List.mem_cons.mp hy with h | h
    · subst h; exact foldl_min_le_init xs y
    · exact foldl_min_le_mem x h

theorem mapGetD_eq_zero {m : List (String × ℚ)} (h : ∀ p ∈ m, p.2 = 0) (key : String) :
    mapGetD m key = 0 := by
  induction m with
  | nil => rfl
  | cons p rest ih =>
    obtain ⟨k, v⟩ := p
    simp only [mapGetD]
    split
    · exact h (k, v) (List.mem_cons_self _ _)
    · exact ih fun q hq => h q (List.mem_cons_of_mem _ hq)

theorem calculateMembership_eq_zero_left {value : ℚ} {s : TrapezoidalSet}
    (h : value ≤ s.a) : calculateMembership value s = 0 := by
  rw [calculateMembership, if_pos (Or.inl h)]

theorem calculateMembership_eq_zero_right {value : ℚ} {s : TrapezoidalSet}
    (h : s.d ≤ value) : calculateMembership value s = 0 := by
  rw [calculateMembership, if_pos (Or.inr h)]

-- ═══════════════════════════════════════════════════════════════════
-- Helper lemmas: the rule-evaluation loop
-- ═══════════════════════════════════════════════════════════════════

theorem inferStep_nonpos {tm pm cm : List (String × ℚ)} {r : FuzzyRule}
    (st : InferState) (h : ¬ 0 < ruleActivationDegree r tm pm cm) :
    inferStep tm pm cm st r = st := by
  simp only [inferStep, gt_iff_lt, if_neg h]

theorem inferStep_pos {tm pm cm : List (String × ℚ)} {r : FuzzyRule}
    (st : InferState) (h : 0 < ruleActivationDegree r tm pm cm) :
    inferStep tm pm cm st r =
      { doseActs := mapSet st.doseActs r.outputs.dose
          (max (mapGetD st.doseActs r.outputs.dose) (ruleActivationDegree r tm pm cm))
        timeActs := mapSet st.timeActs r.outputs.time
          (max (mapGetD st.timeActs r.outputs.time) (ruleActivationDegree r tm pm cm))
        totalCost := st.totalCost + r.baseCost * ruleActivationDegree r tm pm cm
        totalWeight := st.totalWeight + ruleActivationDegree r tm pm cm
        phLevel := if ruleActivationDegree r tm pm cm > st.maxPhW then r.outputs.phCorrection
          else st.phLevel
        maxPhW := if ruleActivationDegree r tm pm cm > st.maxPhW then
          ruleActivationDegree r tm pm cm else st.maxPhW
        ruleActs := st.ruleActs ++
          [⟨r.id, r.name, ruleActivationDegree r tm pm cm, r.conditions, r.outputs⟩] } := by
  simp only [inferStep, gt_iff_lt, if_pos h]

theorem foldl_inferStep_skips {tm pm cm : List (String × ℚ)} (L : List FuzzyRule)
    (st : InferState) (h : ∀ r ∈ L, ¬ 0 < ruleActivationDegree r tm pm cm) :
    L.foldl (inferStep tm pm cm) st = st := by
  induction L generalizing st with
  | nil => rfl
  | cons r rest ih =>
    rw [List.foldl_cons, inferStep_nonpos st (h r (List.mem_cons_self _ _))]
    exact ih st fun x hx => h x (List.mem_cons_of_mem _ hx)

theorem FUZZY_RULES_turbidity_isSome :
    ∀ r ∈ FUZZY_RULES, r.conditions.turbidity.isSome := by decide

theorem ruleActivation_nonpos_of_turbDeg_zero {tm pm cm : List (String × ℚ)}
    {r : FuzzyRule} {n : String} (hn : r.conditions.turbidity = some n)
    (h0 : mapGetD tm n = 0) : ¬ 0 < ruleActivationDegree r tm pm cm := by
  have : ruleActivationDegree r tm pm cm ≤ 0 := by
    have hmem : (0:ℚ) ∈ ruleConditionDegrees r.conditions tm pm cm := by
      simp only [ruleConditionDegrees, hn, h0]
      exact List.mem_append_left _ (List.mem_cons_self _ _)
    simpa using jsMinList_le_of_mem hmem
  exact not_lt.mpr this

theorem fuzzyInferState_eq_init {i : WaterInputs}
    (h : ∀ name, mapGetD (getMemberships i.turbidity TURBIDITY_SETS) name = 0) :
    fuzzyInferState i = initInferState := by
  rw [fuzzyInferState]
  apply foldl_inferStep_skips
  intro r hr
  obtain ⟨n, hn⟩ := Option.isSome_iff_exists.mp (FUZZY_RULES_turbidity_isSome r hr)
  exact ruleActivation_nonpos_of_turbDeg_zero hn (h n)

theorem turb_mapGetD_zero_of_nonpos {t : ℚ} (ht : t ≤ 0) (name : String) :
    mapGetD (getMemberships t TURBIDITY_SETS) name = 0 := by
  have h1 : calculateMembership t ⟨"muy_baja", 0, 0, 5, 15⟩ = 0 :=
    calculateMembership_eq_zero_left (by simpa using ht)
  have h2 : calculateMembership t ⟨"baja", 10, 20, 40, 60⟩ = 0 :=
    calculateMembership_eq_zero_left (by simp; linarith)
  have h3 : calculateMembership t ⟨"media", 50, 80, 150, 200⟩ = 0 :=
    calculateMembership_eq_zero_left (by simp; linarith)
  have h4 : calculateMembership t ⟨"alta", 150, 250, 400, 500⟩ = 0 :=
    calculateMembership_eq_zero_left (by simp; linarith)
  have h5 : calculateMembership t ⟨"muy_alta", 400, 600, 1000, 1000⟩ = 0 :=
    calculateMembership_eq_zero_left (by simp; linarith)
  simp only [getMemberships, TURBIDITY_SETS, List.map_cons, List.map_nil, h1, h2, h3, h4, h5]
  apply mapGetD_eq_zero
  intro p hp
  fin_cases hp <;> rfl

theorem turb_mapGetD_zero_of_ge_1000 {t : ℚ} (ht : 1000 ≤ t) (name : String) :
    mapGetD (getMemberships t TURBIDITY_SETS) name = 0 := by
  have h1 : calculateMembership t ⟨"muy_baja", 0, 0, 5, 15⟩ = 0 :=
    calculateMembership_eq_zero_right (by simp; linarith)
  have h2 : calculateMembership t ⟨"baja", 10, 20, 40, 60⟩ = 0 :=
    calculateMembership_eq_zero_right (by simp; linarith)
  have h3 : calculateMembership t ⟨"media", 50, 80, 150, 200⟩ = 0 :=
    calculateMembership_eq_zero_right (by simp; linarith)
  have h4 : calculateMembership t ⟨"alta", 150, 250, 400, 500⟩ = 0 :=
    calculateMembership_eq_zero_right (by simp; linarith)
  have h5 : calculateMembership t ⟨"muy_alta", 400, 600, 1000, 1000⟩ = 0 :=
    calculateMembership_eq_zero_right (by simpa using ht)
  simp only [getMemberships, TURBIDITY_SETS, List.map_cons, List.map_nil, h1, h2, h3, h4, h5]
  apply mapGetD_eq_zero
  intro p hp
  fin_cases hp <;> rfl

theorem rawCoagulantDose_of_init {i : WaterInputs}
    (h : fuzzyInferState i = initInferState) : rawCoagulantDose i = 0 := by
  rw [rawCoagulantDose, h]
  norm_num [initInferState, defuzzify, DOSE_SETS, mapGetD]

theorem rawCoagulantDose_zero_of_turb_nonpos {i : WaterInputs} (h : i.turbidity ≤ 0) :
    rawCoagulantDose i = 0 :=
  rawCoagulantDose_of_init (fuzzyInferState_eq_init (turb_mapGetD_zero_of_nonpos h))

theorem ruleActivation_nonpos_of_phDeg_zero {tm pm cm : List (String × ℚ)}
    {r : FuzzyRule} {n : String} (hn : r.conditions.ph = some n)
    (h0 : mapGetD pm n = 0) : ¬ 0 < ruleActivationDegree r tm pm cm := by
  have : ruleActivationDegree r tm pm cm ≤ 0 := by
    have hmem : (0:ℚ) ∈ ruleConditionDegrees r.conditions tm pm cm := by
      simp only [ruleConditionDegrees, hn, h0]
      exact List.mem_append_left _ (List.mem_append_right _ (List.mem_cons_self _ _))
    simpa using jsMinList_le_of_mem hmem
  exact not_lt.mpr this

theorem ruleActivation_nonpos_of_tempDeg_zero {tm pm cm : List (String × ℚ)}
    {r : FuzzyRule} {n : String} (hn : r.conditions.temperature = some n)
    (h0 : mapGetD cm n = 0) : ¬ 0 < ruleActivationDegree r tm pm cm := by
  have : ruleActivationDegree r tm pm cm ≤ 0 := by
    have hmem : (0:ℚ) ∈ ruleConditionDegrees r.conditions tm pm cm := by
      simp only [ruleConditionDegrees, hn, h0]
      exact List.mem_append_right _ (List.mem_cons_self _ _)
    simpa using jsMinList_le_of_mem hmem
  exact not_lt.mpr this

theorem foldl_inferStep_single {tm pm cm : List (String × ℚ)}
    (L1 L2 : List FuzzyRule) (r : FuzzyRule) (st : InferState)
    (h1 : ∀ x ∈ L1, ¬ 0 < ruleActivationDegree x tm pm cm)
    (h2 : ∀ x ∈ L2, ¬ 0 < ruleActivationDegree x tm pm cm) :
    (L1 ++ r :: L2).foldl (inferStep tm pm cm) st = inferStep tm pm cm st r := by
  rw [List.foldl_append, foldl_inferStep_skips L1 st h1, List.foldl_cons,
    foldl_inferStep_skips L2 _ h2]

theorem getMemberships_700 : getMemberships 700 TURBIDITY_SETS =
    [("muy_baja", 0), ("baja", 0), ("media", 0), ("alta", 0), ("muy_alta", 1)] := by
  norm_num [getMemberships, TURBIDITY_SETS, calculateMembership]

theorem getMemberships_100 : getMemberships 100 TURBIDITY_SETS =
    [("muy_baja", 0), ("baja", 0), ("media", 1), ("alta", 0), ("muy_alta", 0)] := by
  norm_num [getMemberships, TURBIDITY_SETS, calculateMembership]

theorem getMemberships_30 : getMemberships 30 TURBIDITY_SETS =
    [("muy_baja", 0), ("baja", 1), ("media", 0), ("alta", 0), ("muy_alta", 0)] := by
  norm_num [getMemberships, TURBIDITY_SETS, calculateMembership]

theorem getMemberships_ph7 : getMemberships 7 PH_SETS =
    [("muy_acido", 0), ("acido", 0), ("neutro", 1), ("alcalino", 0), ("muy_alcalino", 0)] := by
  norm_num [getMemberships, PH_SETS, calculateMembership]

theorem getMemberships_ph61 : getMemberships (61/10) PH_SETS =
    [("muy_acido", 0), ("acido", 4/5), ("neutro", 0), ("alcalino", 0), ("muy_alcalino", 0)] := by
  norm_num [getMemberships, PH_SETS, calculateMembership]

theorem getMemberships_temp22 : getMemberships 22 TEMPERATURE_SETS =
    [("fria", 0), ("normal", 1), ("calida", 0)] := by
  norm_num [getMemberships, TEMPERATURE_SETS, calculateMembership]

theorem fuzzyInferState_700 : fuzzyInferState ⟨700, 7, 22⟩ =
    ⟨[("muy_alta", 1)], [("muy_largo", 1)], 55/100, 1, .none, 1,
      [⟨13, "Emergencia - Turbidez extrema, pH neutro", 1,
        ⟨some "muy_alta", some "neutro", Option.none⟩,
        ⟨"muy_alta", "muy_largo", .none⟩⟩]⟩ := by
  rw [fuzzyInferState]
  rw [show (⟨700, 7, 22⟩ : WaterInputs).turbidity = 700 from rfl,
    show (⟨700, 7, 22⟩ : WaterInputs).ph = 7 from rfl,
    show (⟨700, 7, 22⟩ : WaterInputs).temperature = 22 from rfl,
    getMemberships_700, getMemberships_ph7, getMemberships_temp22]
  rw [← List.take_append_drop 12 FUZZY_RULES,
    show FUZZY_RULES.drop 12 =
      (⟨13, "Emergencia - Turbidez extrema, pH neutro",
        ⟨some "muy_alta", some "neutro", Option.none⟩,
        ⟨"muy_alta", "muy_largo", .none⟩, (55/100 : ℚ)⟩ : FuzzyRule) :: FUZZY_RULES.drop 13
      from rfl]
  have hact : ruleActivationDegree
      (⟨13, "Emergencia - Turbidez extrema, pH neutro",
        ⟨some "muy_alta", some "neutro", Option.none⟩,
        ⟨"muy_alta", "muy_largo", .none⟩, (55/100 : ℚ)⟩ : FuzzyRule)
      [("muy_baja", 0), ("baja", 0), ("media", 0), ("alta", 0), ("muy_alta", 1)]
      [("muy_acido", 0), ("acido", 0), ("neutro", 1), ("alcalino", 0), ("muy_alcalino", 0)]
      [("fria", 0), ("normal", 1), ("calida", 0)] = 1 := by decide
  rw [foldl_inferStep_single]
  · rw [inferStep_pos _ (by rw [hact]; norm_num), hact]
    simp only [initInferState, InferState.mk.injEq]
    refine ⟨by decide, by decide, by norm_num, by norm_num, by norm_num, by norm_num, by decide⟩
  · intro x hx
    fin_cases hx <;>
      first
      | exact ruleActivation_nonpos_of_turbDeg_zero rfl (by decide)
      | exact ruleActivation_nonpos_of_phDeg_zero rfl (by decide)
      | exact ruleActivation_nonpos_of_tempDeg_zero rfl (by decide)
  · intro x hx
    fin_cases hx <;>
      first
      | exact ruleActivation_nonpos_of_turbDeg_zero rfl (by decide)
      | exact ruleActivation_nonpos_of_phDeg_zero rfl (by decide)
      | exact ruleActivation_nonpos_of_tempDeg_zero rfl (by decide)

theorem fuzzyInferState_100 : fuzzyInferState ⟨100, 7, 22⟩ =
    ⟨[("media", 1)], [("medio", 1)], 18/100, 1, .none, 1,
      [⟨5, "Turbidez media - pH neutro optimo", 1,
        ⟨some "media", some "neutro", Option.none⟩,
        ⟨"media", "medio", .none⟩⟩]⟩ := by
  rw [fuzzyInferState]
  rw [show (⟨100, 7, 22⟩ : WaterInputs).turbidity = 100 from rfl,
    show (⟨100, 7, 22⟩ : WaterInputs).ph = 7 from rfl,
    show (⟨100, 7, 22⟩ : WaterInputs).temperature = 22 from rfl,
    getMemberships_100, getMemberships_ph7, getMemberships_temp22]
  rw [← List.take_append_drop 4 FUZZY_RULES,
    show FUZZY_RULES.drop 4 =
      (⟨5, "Turbidez media - pH neutro optimo",
        ⟨some "media", some "neutro", Option.none⟩,
        ⟨"media", "medio", .none⟩, (18/100 : ℚ)⟩ : FuzzyRule) :: FUZZY_RULES.drop 5
      from rfl]
  have hact : ruleActivationDegree
      (⟨5, "Turbidez media - pH neutro optimo",
        ⟨some "media", some "neutro", Option.none⟩,
        ⟨"media", "medio", .none⟩, (18/100 : ℚ)⟩ : FuzzyRule)
      [("muy_baja", 0), ("baja", 0), ("media", 1), ("alta", 0), ("muy_alta", 0)]
      [("muy_acido", 0), ("acido", 0), ("neutro", 1), ("alcalino", 0), ("muy_alcalino", 0)]
      [("fria", 0), ("normal", 1), ("calida", 0)] = 1 := by decide
  rw [foldl_inferStep_single]
  · rw [inferStep_pos _ (by rw [hact]; norm_num), hact]
    simp only [initInferState, InferState.mk.injEq]
    refine ⟨by decide, by decide, by norm_num, by norm_num, by norm_num, by norm_num, by decide⟩
  · intro x hx
    fin_cases hx <;>
      first
      | exact ruleActivation_nonpos_of_turbDeg_zero rfl (by decide)
      | exact ruleActivation_nonpos_of_phDeg_zero rfl (by decide)
      | exact ruleActivation_nonpos_of_tempDeg_zero rfl (by decide)
  · intro x hx
    fin_cases hx <;>
      first
      | exact ruleActivation_nonpos_of_turbDeg_zero rfl (by decide)
      | exact ruleActivation_nonpos_of_phDeg_zero rfl (by decide)
      | exact ruleActivation_nonpos_of_tempDeg_zero rfl (by decide)

theorem fuzzyInferState_30_61 : fuzzyInferState ⟨30, 61/10, 22⟩ = initInferState := by
  rw [fuzzyInferState]
  rw [show (⟨30, 61/10, 22⟩ : WaterInputs).turbidity = 30 from rfl,
    show (⟨30, 61/10, 22⟩ : WaterInputs).ph = 61/10 from rfl,
    show (⟨30, 61/10, 22⟩ : WaterInputs).temperature = 22 from rfl,
    getMemberships_30, getMemberships_ph61, getMemberships_temp22]
  apply foldl_inferStep_skips
  intro x hx
  fin_cases hx <;>
    first
    | exact ruleActivation_nonpos_of_turbDeg_zero rfl (by decide)
    | exact ruleActivation_nonpos_of_phDeg_zero rfl (by decide)
    | exact ruleActivation_nonpos_of_tempDeg_zero rfl (by decide)

theorem rawCoagulantDose_700 : rawCoagulantDose ⟨700, 7, 22⟩ = 95 := by
  rw [rawCoagulantDose, fuzzyInferState_700]
  have g1 : mapGetD [("muy_alta", (1:ℚ))] "muy_baja" = 0 := by decide
  have g2 : mapGetD [("muy_alta", (1:ℚ))] "baja" = 0 := by decide
  have g3 : mapGetD [("muy_alta", (1:ℚ))] "media" = 0 := by decide
  have g4 : mapGetD [("muy_alta", (1:ℚ))] "alta" = 0 := by decide
  have g5 : mapGetD [("muy_alta", (1:ℚ))] "muy_alta" = 1 := by decide
  norm_num [defuzzify, DOSE_SETS, g1, g2, g3, g4, g5]

theorem rawCoagulantDose_100 : rawCoagulantDose ⟨100, 7, 22⟩ = 40 := by
  rw [rawCoagulantDose, fuzzyInferState_100]
  have g1 : mapGetD [("media", (1:ℚ))] "muy_baja" = 0 := by decide
  have g2 : mapGetD [("media", (1:ℚ))] "baja" = 0 := by decide
  have g3 : mapGetD [("media", (1:ℚ))] "media" = 1 := by decide
  have g4 : mapGetD [("media", (1:ℚ))] "alta" = 0 := by decide
  have g5 : mapGetD [("media", (1:ℚ))] "muy_alta" = 0 := by decide
  norm_num [defuzzify, DOSE_SETS, g1, g2, g3, g4, g5]

theorem rawCoagulantDose_1000 : rawCoagulantDose ⟨1000, 7, 22⟩ = 0 :=
  rawCoagulantDose_of_init
    (fuzzyInferState_eq_init (turb_mapGetD_zero_of_ge_1000 (by norm_num)))

theorem quality_shape (tf pf procf : ℚ) :
    max 0 (min 100 (jsRound (tf * (5/10) + pf * (3/10) + procf * (2/10)))) =
      max 0 (min 100 (jsRound ((5/10) * tf + (3/10) * pf + (2/10) * procf))) := by
  rw [show tf * (5/10) + pf * (3/10) + procf * (2/10)
    = (5/10) * tf + (3/10) * pf + (2/10) * procf from by ring]

theorem rawCoagulantDose_30_61 : rawCoagulantDose ⟨30, 61/10, 22⟩ = 0 :=
  rawCoagulantDose_of_init fuzzyInferState_30_61

/-- Claim C2 (counterexample): at `turbidity = 30`, `ph = 6.1`,
`temperature = 22` no rule fires, so the defuzzified dose is `0`; the
code then selects the fixed midpoint 50 through its `coagulantDose > 0`
guard and returns quality 84, while the formula of the claim (midpoint
selected by `turbidity > 0`) yields `processFactor = 0` and quality 74. -/
theorem runFuzzyInference_qualityScore_guard_cex :
    (runFuzzyInference ⟨30, 61/10, 22⟩).qualityScore = 84 ∧
    claimQualityScore ⟨30, 61/10, 22⟩ = 74 ∧
    (runFuzzyInference ⟨30, 61/10, 22⟩).qualityScore ≠ claimQualityScore ⟨30, 61/10, 22⟩ := by
  have habs : |(61/10 : ℚ) - 7| = 9/10 := by
    rw [abs_of_nonpos (by norm_num)]; norm_num
  have hjs1 : jsRound ((1689/20 : ℚ)) = 84 := jsRound_eq_of _ 84 (by norm_num) (by norm_num)
  have hjs2 : jsRound ((1489/20 : ℚ)) = 74 := jsRound_eq_of _ 74 (by norm_num) (by norm_num)
  refine ⟨?_, ?_, ?_⟩
  · simp only [runFuzzyInference, rawCoagulantDose_30_61, habs]
    norm_num [max_def, min_def, hjs1]
  · simp only [claimQualityScore, rawCoagulantDose_30_61, habs]
    norm_num [max_def, min_def, hjs2]
  · simp only [runFuzzyInference, claimQualityScore, rawCoagulantDose_30_61, habs]
    norm_num [max_def, min_def, hjs1, hjs2]

/-- Claim C2 (amended): for every input, `qualityScore` equals
`round(0.5·turbidityFactor + 0.3·phFactor + 0.2·processFactor)` clamped
to `[0,100]` with the stated factor formulas, where the fixed-midpoint
fallback `processFactor = 50` is selected by `coagulantDose > 0` (the
defuzzified dose), not by `turbidity > 0`. -/
theorem runFuzzyInference_qualityScore_eq_amended (i : WaterInputs) :
    (runFuzzyInference i).qualityScore = claimQualityScoreAmended i := by
  by_cases hd : 0 < rawCoagulantDose i
  · have ht : ¬ i.turbidity ≤ 0 := by
      intro hle
      rw [rawCoagulantDose_zero_of_turb_nonpos hle] at hd
      exact lt_irrefl 0 hd
    have ht0 : ¬ i.turbidity = 0 := fun h => ht (le_of_eq h)
    simp only [runFuzzyInference, claimQualityScoreAmended, gt_iff_lt, if_pos hd, if_neg ht0]
    exact quality_shape _ _ _
  · simp only [runFuzzyInference, claimQualityScoreAmended, gt_iff_lt, if_neg hd]
    exact quality_shape _ _ _

/-- Claim C2 (witness for the amended theorem): a concrete instance of
the amended equation. -/
theorem runFuzzyInference_qualityScore_eq_amended_witness :
    (runFuzzyInference ⟨30, 61/10, 22⟩).qualityScore =
      claimQualityScoreAmended ⟨30, 61/10, 22⟩ :=
  runFuzzyInference_qualityScore_eq_amended ⟨30, 61/10, 22⟩

/-- Claim C8 (code evaluation at the failing input): with `ph = 7` and
`temperature = 22` fixed, raising turbidity from 700 to 1000 drops the
returned coagulant dose from 95 mg/L to 0, because the `muy_alta`
membership evaluates to 0 at the right edge `d = 1000` of its support —
the dose is not monotone in turbidity. -/
theorem runFuzzyInference_dose_not_monotone_at_1000 :
    (700 : ℚ) ≤ 1000 ∧
    (runFuzzyInference ⟨700, 7, 22⟩).coagulantDose = 95 ∧
    (runFuzzyInference ⟨1000, 7, 22⟩).coagulantDose = 0 := by
  have hjs1 : jsRound ((950:ℚ)) = 950 := jsRound_eq_of _ 950 (by norm_num) (by norm_num)
  have hjs0 : jsRound ((0:ℚ)) = 0 := jsRound_eq_of _ 0 (by norm_num) (by norm_num)
  refine ⟨by norm_num, ?_, ?_⟩
  · simp only [runFuzzyInference, rawCoagulantDose_700]
    norm_num [hjs1]
  · simp only [runFuzzyInference, rawCoagulantDose_1000]
    norm_num [hjs0]

theorem calculateMembershipChecked_eq (s : TrapezoidalSet) (v : ℚ) :
    calculateMembershipChecked v s = some (calculateMembership v s) := by
  rw [calculateMembershipChecked, calculateMembership]
  by_cases h1 : v ≤ s.a ∨ v ≥ s.d
  · rw [if_pos h1, if_pos h1]
  · rw [if_neg h1, if_neg h1]
    by_cases h2 : v ≥ s.b ∧ v ≤ s.c
    · rw [if_pos h2, if_pos h2]
    · rw [if_neg h2, if_neg h2]
      by_cases h3 : v > s.a ∧ v < s.b
      · rw [if_pos h3, if_pos h3, if_neg]
        intro hb
        obtain ⟨hl, hr⟩ := h3
        rw [sub_eq_zero.mp hb] at hr
        exact absurd (lt_trans hl hr) (lt_irrefl _)
      · rw [if_neg h3, if_neg h3]
        by_cases h4 : v > s.c ∧ v < s.d
        · rw [if_pos h4, if_pos h4, if_neg]
          intro hd
          obtain ⟨hl, hr⟩ := h4
          rw [sub_eq_zero.mp hd] at hr
          exact absurd (lt_trans hl hr) (lt_irrefl _)
        · rw [if_neg h4, if_neg h4]

/-- Claim C4 (counterexample): the first turbidity set has `a = b = 0`,
yet the membership evaluated exactly at `value = a = 0` is `0`, not the
claimed `1` — the first guard `value <= a` wins at the boundary. -/
theorem calculateMembership_left_edge_cex :
    (⟨"muy_baja", 0, 0, 5, 15⟩ : TrapezoidalSet) ∈ TURBIDITY_SETS ∧
    (⟨"muy_baja", 0, 0, 5, 15⟩ : TrapezoidalSet).a = (⟨"muy_baja", 0, 0, 5, 15⟩ : TrapezoidalSet).b ∧
    calculateMembership 0 ⟨"muy_baja", 0, 0, 5, 15⟩ = 0 ∧
    calculateMembership 0 ⟨"muy_baja", 0, 0, 5, 15⟩ ≠ 1 := by
  refine ⟨by decide, rfl, by decide, by decide⟩

/-- Claim C4 (amended): for a degenerate set with `a = b`, the
membership at `value = a` itself is `0`; full membership `1` holds
immediately past `a` (for `a < v ≤ c`, `v < d`); and no evaluation on a
set with `a = b` or `c = d` divides by zero (the ramp branches that
divide are unreachable there, witnessed by the division-guarded
variant agreeing with the plain one). -/
theorem calculateMembership_degenerate_left_edge (s : TrapezoidalSet) (v : ℚ) :
    (s.a = s.b →
      calculateMembership s.a s = 0 ∧
      (s.a < v → v ≤ s.c → v < s.d → calculateMembership v s = 1)) ∧
    (s.a = s.b ∨ s.c = s.d →
      calculateMembershipChecked v s = some (calculateMembership v s)) := by
  constructor
  · intro hab
    refine ⟨calculateMembership_eq_zero_left (le_refl _), ?_⟩
    intro h1 h2 h3
    rw [calculateMembership, if_neg, if_pos]
    · exact ⟨by rw [← hab]; exact le_of_lt h1, h2⟩
    · push_neg
      exact ⟨h1, h3⟩
  · intro _
    exact calculateMembershipChecked_eq s v

/-- Claim C4 (witness): the amended statement instantiated on the
degenerate turbidity set `muy_baja` at `v = 3`. -/
theorem calculateMembership_degenerate_left_edge_witness :
    calculateMembership 0 ⟨"muy_baja", 0, 0, 5, 15⟩ = 0 ∧
    calculateMembership 3 ⟨"muy_baja", 0, 0, 5, 15⟩ = 1 ∧
    calculateMembershipChecked 3 ⟨"muy_baja", 0, 0, 5, 15⟩ =
      some (calculateMembership 3 ⟨"muy_baja", 0, 0, 5, 15⟩) := by
  have h := calculateMembership_degenerate_left_edge ⟨"muy_baja", 0, 0, 5, 15⟩ 3
  exact ⟨(h.1 rfl).1, (h.1 rfl).2 (by norm_num) (by norm_num) (by norm_num),
    h.2 (Or.inl rfl)⟩

/-- Claim C5 (counterexample): the fully left-degenerate set
`(0,0,0,10)` satisfies `a ≤ b ≤ c ≤ d`, but its plateau midpoint
`(b+c)/2 = 0` hits the `value <= a` guard, so the membership there is
`0`, not the claimed `1`. -/
theorem calculateMembership_midpoint_cex :
    ((⟨"degenerada", 0, 0, 0, 10⟩ : TrapezoidalSet).a ≤ (⟨"degenerada", 0, 0, 0, 10⟩ : TrapezoidalSet).b ∧
      (⟨"degenerada", 0, 0, 0, 10⟩ : TrapezoidalSet).b ≤ (⟨"degenerada", 0, 0, 0, 10⟩ : TrapezoidalSet).c ∧
      (⟨"degenerada", 0, 0, 0, 10⟩ : TrapezoidalSet).c ≤ (⟨"degenerada", 0, 0, 0, 10⟩ : TrapezoidalSet).d) ∧
    ((0 : ℚ) + 0) / 2 = 0 ∧
    calculateMembership 0 ⟨"degenerada", 0, 0, 0, 10⟩ ≠ 1 := by
  refine ⟨by decide, by norm_num, by decide⟩

/-- Claim C5 (amended): for `a ≤ b ≤ c ≤ d` the membership always lies
in `[0,1]` and vanishes at `a`; the plateau midpoint `(b+c)/2` has
membership `1` provided it lies strictly between `a` and `d` (which
excludes only the fully degenerate sets `a = b = c` or `b = c = d`). -/
theorem calculateMembership_range_and_anchors (s : TrapezoidalSet) (v : ℚ)
    (hab : s.a ≤ s.b) (hbc : s.b ≤ s.c) (hcd : s.c ≤ s.d) :
    (0 ≤ calculateMembership v s ∧ calculateMembership v s ≤ 1) ∧
    calculateMembership s.a s = 0 ∧
    (s.a < (s.b + s.c) / 2 → (s.b + s.c) / 2 < s.d →
      calculateMembership ((s.b + s.c) / 2) s = 1) := by
  refine ⟨?_, calculateMembership_eq_zero_left (le_refl _), ?_⟩
  · rw [calculateMembership]
    split_ifs with h1 h2 h3 h4
    · norm_num
    · norm_num
    · obtain ⟨hl, hr⟩ := h3
      constructor
      · apply div_nonneg <;> linarith
      · rw [div_le_one (by linarith)]
        linarith
    · obtain ⟨hl, hr⟩ := h4
      constructor
      · apply div_nonneg <;> linarith
      · rw [div_le_one (by linarith)]
        linarith
    · norm_num
  · intro h1 h2
    rw [calculateMembership, if_neg, if_pos]
    · exact ⟨by linarith, by linarith⟩
    · push_neg
      exact ⟨h1, h2⟩

/-- Claim C5 (witness): the amended statement instantiated on the
`media` turbidity set at `v = 100` and at its plateau midpoint. -/
theorem calculateMembership_range_and_anchors_witness :
    (0 ≤ calculateMembership 100 ⟨"media", 50, 80, 150, 200⟩ ∧
      calculateMembership 100 ⟨"media", 50, 80, 150, 200⟩ ≤ 1) ∧
    calculateMembership 50 ⟨"media", 50, 80, 150, 200⟩ = 0 ∧
    calculateMembership ((80 + 150 : ℚ) / 2) ⟨"media", 50, 80, 150, 200⟩ = 1 := by
  have h := calculateMembership_range_and_anchors ⟨"media", 50, 80, 150, 200⟩ 100
    (by norm_num) (by norm_num) (by norm_num)
  exact ⟨h.1, h.2.1, h.2.2 (by norm_num) (by norm_num)⟩

/-- Claim C10: on a single-element membership row `[x]` both the
failure index and the alert index of `analyzeRisk` resolve to `0`, so
the returned risk score is `min(100, round(40·x + 100·x)) =
min(100, round(140·x))`; in particular `x = 1` scores exactly `100` and
is categorised `critical`. -/
theorem analyzeRisk_single_cluster (x : ℚ) :
    (analyzeRisk [x] CLUSTER_NAMES).riskScore = min 100 (jsRound (140 * x)) ∧
    (analyzeRisk [1] CLUSTER_NAMES).riskScore = 100 ∧
    (analyzeRisk [1] CLUSTER_NAMES).riskCategory = .critical := by
  have hjs : jsRound ((140 : ℚ)) = 140 := jsRound_eq_of _ 140 (by norm_num) (by norm_num)
  have hidx : (if (0 + 1 : ℕ) > 2 then 0 + 1 - 2 else 0) = 0 := by norm_num
  refine ⟨?_, ?_, ?_⟩
  · simp only [analyzeRisk, List.length_cons, List.length_nil, hidx, Nat.add_sub_cancel,
      List.getD_cons_zero]
    rw [show x * 40 + x * 100 = 140 * x from by ring]
  · simp only [analyzeRisk, List.length_cons, List.length_nil, hidx, Nat.add_sub_cancel,
      List.getD_cons_zero]
    norm_num [hjs]
  · simp only [analyzeRisk, List.length_cons, List.length_nil, hidx, Nat.add_sub_cancel,
      List.getD_cons_zero]
    norm_num [hjs]

theorem foldl_max_init_le (xs : List ℚ) (a : ℚ) : a ≤ xs.foldl max a := by
  induction xs generalizing a with
  | nil => simp
  | cons x xs ih => exact le_trans (le_max_left a x) (ih (max a x))

theorem foldl_max_mem_le {xs : List ℚ} {y : ℚ} (a : ℚ) (hy : y ∈ xs) : y ≤ xs.foldl max a := by
  induction xs generalizing a with
  | nil => cases hy
  | cons x xs ih =>
    rcases List.mem_cons.mp hy with h | h
    · subst h
      exact le_trans (le_max_right a y) (foldl_max_init_le xs (max a y))
    · exact ih (max a x) h

theorem foldl_max_of_all_le {xs : List ℚ} {a : ℚ} (h : ∀ x ∈ xs, x ≤ a) :
    xs.foldl max a = a := by
  induction xs with
  | nil => rfl
  | cons x xs ih =>
    rw [List.foldl_cons, max_eq_left (h x (List.mem_cons_self _ _))]
    exact ih fun y hy => h y (List.mem_cons_of_mem _ hy)

theorem foldl_max_eq_init_or_mem (xs : List ℚ) (a : ℚ) :
    xs.foldl max a = a ∨ xs.foldl max a ∈ xs := by
  induction xs generalizing a with
  | nil => exact Or.inl rfl
  | cons x xs ih =>
    rw [List.foldl_cons]
    rcases ih (max a x) with h | h
    · rw [h]
      rcases le_total a x with hax | hxa
      · exact Or.inr (by rw [max_eq_right hax]; exact List.mem_cons_self _ _)
      · exact Or.inl (max_eq_left hxa)
    · exact Or.inr (List.mem_cons_of_mem _ h)

theorem jsMinList_eq_minimum (l : List ℚ) : jsMinList l = (l.minimum?).getD 0 := by
  cases l with
  | nil => rfl
  | cons x xs => rfl

theorem inferFold_ruleActs {tm pm cm : List (String × ℚ)} (L : List FuzzyRule) :
    ∀ st : InferState,
      (∀ a ∈ st.ruleActs,
        a.firingStrength = jsMinList (ruleConditionDegrees a.conditions tm pm cm)) →
      ∀ a ∈ (L.foldl (inferStep tm pm cm) st).ruleActs,
        a.firingStrength = jsMinList (ruleConditionDegrees a.conditions tm pm cm) := by
  induction L with
  | nil => exact fun st h => h
  | cons r rest ih =>
    intro st hst
    rw [List.foldl_cons]
    apply ih
    by_cases hr : 0 < ruleActivationDegree r tm pm cm
    · rw [inferStep_pos st hr]
      intro a ha
      rcases List.mem_append.mp ha with h | h
      · exact hst a h
      · rcases List.mem_singleton.mp h with rfl
        rfl
    · rw [inferStep_nonpos st hr]
      exact hst

theorem inferStep_domPair {tm pm cm : List (String × ℚ)} (st : InferState) (r : FuzzyRule) :
    ((inferStep tm pm cm st r).maxPhW, (inferStep tm pm cm st r).phLevel) =
      domPair tm pm cm (st.maxPhW, st.phLevel) r := by
  by_cases hfire : 0 < ruleActivationDegree r tm pm cm
  · by_cases hgt : st.maxPhW < ruleActivationDegree r tm pm cm
    · rw [inferStep_pos st hfire]
      simp only [gt_iff_lt, if_pos hgt]
      rw [domPair, if_pos ⟨hfire, hgt⟩]
    · rw [inferStep_pos st hfire]
      simp only [gt_iff_lt, if_neg hgt]
      rw [domPair, if_neg fun h => hgt h.2]
  · rw [inferStep_nonpos st hfire, domPair, if_neg fun h => hfire h.1]

theorem inferFold_domPair {tm pm cm : List (String × ℚ)} (L : List FuzzyRule) :
    ∀ st : InferState,
      ((L.foldl (inferStep tm pm cm) st).maxPhW, (L.foldl (inferStep tm pm cm) st).phLevel) =
        L.foldl (domPair tm pm cm) (st.maxPhW, st.phLevel) := by
  induction L with
  | nil => intro st; rfl
  | cons r rest ih =>
    intro st
    rw [List.foldl_cons, List.foldl_cons, ih (inferStep tm pm cm st r), inferStep_domPair]

theorem domPair_fold_spec {tm pm cm : List (String × ℚ)} (L : List FuzzyRule) :
    ∀ (w : ℚ) (lvl : PhCorrection), 0 ≤ w →
      ((L.foldl (domPair tm pm cm) (w, lvl)).1 =
        (L.map fun r => ruleActivationDegree r tm pm cm).foldl max w) ∧
      ((¬ ∃ r ∈ L, w < ruleActivationDegree r tm pm cm) →
        (L.foldl (domPair tm pm cm) (w, lvl)).2 = lvl) ∧
      (∀ r₀ : FuzzyRule, (∃ r ∈ L, w < ruleActivationDegree r tm pm cm) →
        L.find? (fun r => decide (ruleActivationDegree r tm pm cm =
          (L.map fun x => ruleActivationDegree x tm pm cm).foldl max w)) = some r₀ →
        (L.foldl (domPair tm pm cm) (w, lvl)).2 = r₀.outputs.phCorrection) := by
  induction L with
  | nil =>
    intro w lvl _
    exact ⟨rfl, fun _ => rfl, fun r₀ hex _ => absurd hex (by simp)⟩
  | cons r rest ih =>
    intro w lvl h0
    rw [List.foldl_cons, List.map_cons, List.foldl_cons]
    by_cases hgt : w < ruleActivationDegree r tm pm cm
    · have hfire : 0 < ruleActivationDegree r tm pm cm := lt_of_le_of_lt h0 hgt
      rw [domPair, if_pos ⟨hfire, hgt⟩, max_eq_right (le_of_lt hgt)]
      obtain ⟨ih1, ih2, ih3⟩ :=
        ih (ruleActivationDegree r tm pm cm) r.outputs.phCorrection (le_of_lt hfire)
      refine ⟨ih1, ?_, ?_⟩
      · intro h
        exact absurd ⟨r, List.mem_cons_self _ _, hgt⟩ h
      · intro r₀ _ hfind
        by_cases hex2 : ∃ x ∈ rest,
            ruleActivationDegree r tm pm cm < ruleActivationDegree x tm pm cm
        · have hMgt : ruleActivationDegree r tm pm cm <
              (rest.map fun x => ruleActivationDegree x tm pm cm).foldl max
                (ruleActivationDegree r tm pm cm) := by
            obtain ⟨x, hx, hax⟩ := hex2
            exact lt_of_lt_of_le hax (foldl_max_mem_le _ (List.mem_map_of_mem _ hx))
          rw [List.find?_cons_of_neg _
            (by simp only [decide_eq_true_eq]; exact ne_of_lt hMgt)] at hfind
          exact ih3 r₀ hex2 hfind
        · have hMa : (rest.map fun x => ruleActivationDegree x tm pm cm).foldl max
              (ruleActivationDegree r tm pm cm) = ruleActivationDegree r tm pm cm := by
            apply foldl_max_of_all_le
            intro y hy
            obtain ⟨x, hx, rfl⟩ := List.mem_map.mp hy
            exact not_lt.mp fun h => hex2 ⟨x, hx, h⟩
          rw [List.find?_cons_of_pos _
            (by simp only [decide_eq_true_eq]; exact hMa.symm)] at hfind
          have hrr := Option.some.inj hfind
          subst hrr
          exact ih2 hex2
    · rw [domPair, if_neg fun h => hgt h.2, max_eq_left (not_lt.mp hgt)]
      obtain ⟨ih1, ih2, ih3⟩ := ih w lvl h0
      refine ⟨ih1, ?_, ?_⟩
      · intro h
        apply ih2
        rintro ⟨x, hx, hax⟩
        exact h ⟨x, List.mem_cons_of_mem _ hx, hax⟩
      · intro r₀ hex hfind
        have hex2 : ∃ x ∈ rest, w < ruleActivationDegree x tm pm cm := by
          obtain ⟨x, hx, hax⟩ := hex
          rcases List.mem_cons.mp hx with rfl | hx2
          · exact absurd hax hgt
          · exact ⟨x, hx2, hax⟩
        have hMgt : w < (rest.map fun x => ruleActivationDegree x tm pm cm).foldl max w := by
          obtain ⟨x, hx, hax⟩ := hex2
          exact lt_of_lt_of_le hax (foldl_max_mem_le _ (List.mem_map_of_mem _ hx))
        rw [List.find?_cons_of_neg _ (by
          simp only [decide_eq_true_eq]
          intro he
          exact absurd hMgt (not_lt.mpr (he ▸ not_lt.mp hgt)))] at hfind
        exact ih3 r₀ hex2 hfind

/-- Claim C7: every rule activation recorded by `runFuzzyInference`
carries as firing strength the minimum of the membership degrees of the
conditions present in the rule (absent conditions omitted; an empty
condition list gives 0), and the returned `phCorrection` is the level of
the first rule in rule-base order attaining the maximal firing strength
when that maximum is positive (ties keep the earlier rule), `'none'`
otherwise. -/
theorem runFuzzyInference_strengths_and_dominant (i : WaterInputs) :
    (∀ a ∈ (runFuzzyInference i).ruleActivations,
      a.firingStrength =
        ((ruleConditionDegrees a.conditions
          (getMemberships i.turbidity TURBIDITY_SETS)
          (getMemberships i.ph PH_SETS)
          (getMemberships i.temperature TEMPERATURE_SETS)).minimum?).getD 0) ∧
    (runFuzzyInference i).phCorrection = specDominantPhLevel i := by
  constructor
  · intro a ha
    rw [← jsMinList_eq_minimum]
    have hmem : a ∈ (fuzzyInferState i).ruleActs := by
      simp only [runFuzzyInference, List.mem_mergeSort] at ha
      exact ha
    exact inferFold_ruleActs FUZZY_RULES initInferState
      (by intro x hx; simp [initInferState] at hx) a hmem
  · have hpair := @inferFold_domPair
      (getMemberships i.turbidity TURBIDITY_SETS)
      (getMemberships i.ph PH_SETS)
      (getMemberships i.temperature TEMPERATURE_SETS)
      FUZZY_RULES initInferState
    obtain ⟨hfst, hsnd, hfind⟩ := @domPair_fold_spec
      (getMemberships i.turbidity TURBIDITY_SETS)
      (getMemberships i.ph PH_SETS)
      (getMemberships i.temperature TEMPERATURE_SETS)
      FUZZY_RULES (0:ℚ) PhCorrection.none (le_refl 0)
    have hlevel : (fuzzyInferState i).phLevel =
        (FUZZY_RULES.foldl (domPair (getMemberships i.turbidity TURBIDITY_SETS)
          (getMemberships i.ph PH_SETS)
          (getMemberships i.temperature TEMPERATURE_SETS)) ((0:ℚ), PhCorrection.none)).2 :=
      congrArg Prod.snd hpair
    have hMdef : maxFiringStrength i =
        (FUZZY_RULES.map fun x => ruleActivationDegree x
          (getMemberships i.turbidity TURBIDITY_SETS)
          (getMemberships i.ph PH_SETS)
          (getMemberships i.temperature TEMPERATURE_SETS)).foldl max 0 := rfl
    have hphase : (runFuzzyInference i).phCorrection = (fuzzyInferState i).phLevel := rfl
    rw [hphase, hlevel, specDominantPhLevel]
    by_cases hex : ∃ r ∈ FUZZY_RULES, (0:ℚ) < ruleActivationDegree r
        (getMemberships i.turbidity TURBIDITY_SETS)
        (getMemberships i.ph PH_SETS)
        (getMemberships i.temperature TEMPERATURE_SETS)
    · have hM0 : 0 < maxFiringStrength i := by
        obtain ⟨r, hr, hrpos⟩ := hex
        rw [hMdef]
        exact lt_of_lt_of_le hrpos (foldl_max_mem_le _ (List.mem_map_of_mem _ hr))
      rw [if_pos hM0]
      have hattain : ∃ x ∈ FUZZY_RULES,
          (fun r => decide (ruleActivationDegree r
            (getMemberships i.turbidity TURBIDITY_SETS)
            (getMemberships i.ph PH_SETS)
            (getMemberships i.temperature TEMPERATURE_SETS) = maxFiringStrength i)) x = true := by
        rcases foldl_max_eq_init_or_mem (FUZZY_RULES.map fun x => ruleActivationDegree x
          (getMemberships i.turbidity TURBIDITY_SETS)
          (getMemberships i.ph PH_SETS)
          (getMemberships i.temperature TEMPERATURE_SETS)) 0 with h | h
        · exfalso
          rw [hMdef] at hM0
          rw [h] at hM0
          exact lt_irrefl 0 hM0
        · obtain ⟨r, hr, hact⟩ := List.mem_map.mp h
          refine ⟨r, hr, ?_⟩
          simp only [decide_eq_true_eq]
          rw [hMdef]
          exact hact
      obtain ⟨r₀, hr₀⟩ := Option.isSome_iff_exists.mp (List.find?_isSome.mpr hattain)
      rw [hr₀]
      have hfind2 := hfind r₀ hex
      rw [← hMdef] at hfind2
      exact hfind2 hr₀
    · have hM0 : maxFiringStrength i = 0 := by
        rw [hMdef]
        apply foldl_max_of_all_le
        intro y hy
        obtain ⟨x, hx, rfl⟩ := List.mem_map.mp hy
        exact not_lt.mp fun h => hex ⟨x, hx, h⟩
      rw [if_neg (by rw [hM0]; exact lt_irrefl 0)]
      exact hsnd hex

/-- Claim C7 (witness): at turbidity 100, pH 7, temperature 22 rule 5
is the only fired rule; its recorded strength is the minimum of its two
condition degrees and the dominant correction level matches. -/
theorem runFuzzyInference_strengths_and_dominant_witness :
    (⟨5, "Turbidez media - pH neutro optimo", 1,
      ⟨some "media", some "neutro", Option.none⟩,
      ⟨"media", "medio", .none⟩⟩ : RuleActivation) ∈
        (runFuzzyInference ⟨100, 7, 22⟩).ruleActivations ∧
    (1 : ℚ) = ((ruleConditionDegrees ⟨some "media", some "neutro", Option.none⟩
      (getMemberships (100:ℚ) TURBIDITY_SETS)
      (getMemberships (7:ℚ) PH_SETS)
      (getMemberships (22:ℚ) TEMPERATURE_SETS)).minimum?).getD 0 ∧
    (runFuzzyInference ⟨100, 7, 22⟩).phCorrection = specDominantPhLevel ⟨100, 7, 22⟩ := by
  have hm : (⟨5, "Turbidez media - pH neutro optimo", 1,
      ⟨some "media", some "neutro", Option.none⟩,
      ⟨"media", "medio", .none⟩⟩ : RuleActivation) ∈
        (runFuzzyInference ⟨100, 7, 22⟩).ruleActivations := by
    simp only [runFuzzyInference, List.mem_mergeSort, fuzzyInferState_100]
    exact List.mem_singleton.mpr rfl
  refine ⟨hm, ?_, (runFuzzyInference_strengths_and_dominant ⟨100, 7, 22⟩).2⟩
  exact (runFuzzyInference_strengths_and_dominant ⟨100, 7, 22⟩).1 _ hm

-- ═══════════════════════════════════════════════════════════════════
-- Helper lemmas: the FCM solver
-- ═══════════════════════════════════════════════════════════════════

@[simp] theorem except_bind_ok {ε α β : Type} (x : α) (f : α → Except ε β) :
    (Except.ok x >>= f) = f x := rfl

@[simp] theorem except_bind_err {ε α β : Type} (e : ε) (f : α → Except ε β) :
    ((Except.error e : Except ε α) >>= f) = Except.error e := rfl

@[simp] theorem except_map_ok {ε α β : Type} (g : α → β) (x : α) :
    (Except.ok x : Except ε α).map g = Except.ok (g x) := rfl

@[simp] theorem except_map_err {ε α β : Type} (g : α → β) (e : ε) :
    (Except.error e : Except ε α).map g = Except.error e := rfl

theorem exceptPure_eq_ok {ε α : Type} (x : α) : (pure x : Except ε α) = Except.ok x := rfl

theorem mapM_ok_props {ε α β : Type} (f : α → Except ε β) :
    ∀ (l : List α) (out : List β), l.mapM f = .ok out →
      out.length = l.length ∧ ∀ y ∈ out, ∃ x ∈ l, f x = .ok y := by
  intro l
  induction l with
  | nil =>
    intro out h
    rw [List.mapM_nil] at h
    cases h
    exact ⟨rfl, by intro y hy; cases hy⟩
  | cons a l ih =>
    intro out h
    rw [List.mapM_cons] at h
    cases hfa : f a with
    | error e => rw [hfa] at h; simp at h
    | ok b =>
      rw [hfa] at h
      simp only [except_bind_ok] at h
      cases hrest : l.mapM f with
      | error e => rw [hrest] at h; simp at h
      | ok bs =>
        rw [hrest] at h
        simp only [except_bind_ok, exceptPure_eq_ok] at h
        cases h
        obtain ⟨ihlen, ihmem⟩ := ih bs hrest
        constructor
        · simp [ihlen]
        · intro y hy
          rcases List.mem_cons.mp hy with rfl | hy2
          · exact ⟨a, List.mem_cons_self _ _, hfa⟩
          · obtain ⟨x, hx, hfx⟩ := ihmem y hy2
            exact ⟨x, List.mem_cons_of_mem _ hx, hfx⟩

theorem mapM_ok_of_forall {ε α β : Type} (f : α → Except ε β) :
    ∀ l : List α, (∀ x ∈ l, ∃ y, f x = .ok y) →
      ∃ out, l.mapM f = .ok out := by
  intro l
  induction l with
  | nil => intro _; exact ⟨[], by rw [List.mapM_nil]; rfl⟩
  | cons a l ih =>
    intro h
    obtain ⟨b, hb⟩ := h a (List.mem_cons_self _ _)
    obtain ⟨bs, hbs⟩ := ih fun x hx => h x (List.mem_cons_of_mem _ hx)
    exact ⟨b :: bs, by rw [List.mapM_cons, hb, except_bind_ok, hbs, except_bind_ok]; rfl⟩

theorem euclideanDistance_ok_nonneg {p q : List ℝ} {dv : ℝ}
    (h : euclideanDistance p q = .ok dv) : 0 ≤ dv := by
  rw [euclideanDistance] at h
  split at h
  · cases h
    exact Real.sqrt_nonneg _
  · cases h

theorem euclideanDistance_ok_of_length {p q : List ℝ} (h : p.length = q.length) :
    ∃ dv, euclideanDistance p q = .ok dv :=
  ⟨_, by rw [euclideanDistance, if_pos h]⟩

theorem onehotFirstZero_props {dists : List ℝ} (h : (0:ℝ) ∈ dists) :
    (onehotFirstZero dists).sum = 1 ∧ ∀ x ∈ onehotFirstZero dists, x = 0 ∨ x = 1 := by
  induction dists with
  | nil => cases h
  | cons d rest ih =>
    rw [onehotFirstZero]
    by_cases hd : d = 0
    · rw [if_pos hd]
      constructor
      · simp [List.sum_replicate]
      · intro x hx
        rcases List.mem_cons.mp hx with rfl | hx2
        · exact Or.inr rfl
        · exact Or.inl (List.eq_of_mem_replicate hx2)
    · rw [if_neg hd]
      have h2 : (0:ℝ) ∈ rest := by
        rcases List.mem_cons.mp h with h0 | h0
        · exact absurd h0.symm hd
        · exact h0
      obtain ⟨ihs, ihm⟩ := ih h2
      constructor
      · rw [List.sum_cons, ihs]; norm_num
      · intro x hx
        rcases List.mem_cons.mp hx with rfl | hx2
        · exact Or.inl rfl
        · exact ihm x hx2

theorem sum_map_div (l : List ℝ) (c : ℝ) : (l.map fun x => x / c).sum = l.sum / c := by
  induction l with
  | nil => simp
  | cons x xs ih => simp [ih, add_div]

theorem normalizeRow_sum {row : List ℝ} (h : 0 < row.sum) : (normalizeRow row).sum = 1 := by
  rw [normalizeRow, if_pos h, sum_map_div, div_self (ne_of_gt h)]

theorem normalizeRow_mem {row : List ℝ} {y : ℝ} (h : 0 < row.sum)
    (hy : y ∈ normalizeRow row) : ∃ x ∈ row, y = x / row.sum := by
  rw [normalizeRow, if_pos h] at hy
  obtain ⟨x, hx, hxy⟩ := List.mem_map.mp hy
  exact ⟨x, hx, hxy.symm⟩

theorem fcmRow_props {dists : List ℝ} (p : ℝ) (hne : dists ≠ [])
    (hnn : ∀ dv ∈ dists, 0 ≤ dv) :
    (fcmRow dists p).sum = 1 ∧ ∀ x ∈ fcmRow dists p, 0 ≤ x ∧ x ≤ 1 := by
  rw [fcmRow, fcmRawRow]
  by_cases h0 : (0:ℝ) ∈ dists
  · rw [if_pos h0]
    obtain ⟨hs, hm⟩ := onehotFirstZero_props h0
    have hpos : 0 < (onehotFirstZero dists).sum := by rw [hs]; norm_num
    refine ⟨normalizeRow_sum hpos, ?_⟩
    intro x hx
    obtain ⟨z, hz, rfl⟩ := normalizeRow_mem hpos hx
    rw [hs]
    rcases hm z hz with rfl | rfl <;> norm_num
  · rw [if_neg h0]
    have hposD : ∀ dv ∈ dists, 0 < dv := by
      intro dv hdv
      rcases lt_or_eq_of_le (hnn dv hdv) with h | h
      · exact h
      · exact absurd (h ▸ hdv) h0
    have hraw : ∀ y ∈ dists.map fun dj => 1 / (dists.map fun dl => (dj / dl) ^ p).sum,
        0 < y := by
      intro y hy
      obtain ⟨dj, hdj, rfl⟩ := List.mem_map.mp hy
      apply div_pos one_pos
      apply List.sum_pos
      · intro z hz
        obtain ⟨dl, hdl, rfl⟩ := List.mem_map.mp hz
        exact Real.rpow_pos_of_pos (div_pos (hposD dj hdj) (hposD dl hdl)) p
      · simpa using hne
    have hrawne : (dists.map fun dj => 1 / (dists.map fun dl => (dj / dl) ^ p).sum) ≠ [] := by
      simpa using hne
    have hsum : 0 < (dists.map fun dj => 1 / (dists.map fun dl => (dj / dl) ^ p).sum).sum :=
      List.sum_pos _ hraw hrawne
    refine ⟨normalizeRow_sum hsum, ?_⟩
    intro x hx
    obtain ⟨z, hz, rfl⟩ := normalizeRow_mem hsum hx
    constructor
    · exact div_nonneg (le_of_lt (hraw z hz)) (le_of_lt hsum)
    · rw [div_le_one hsum]
      exact List.single_le_sum (fun y hy => le_of_lt (hraw y hy)) z hz

theorem updateCentroids_length (feats mem : List (List ℝ)) (m : ℝ) (k dim : ℕ) :
    (updateCentroids feats mem m k dim).length = k ∧
    ∀ c ∈ updateCentroids feats mem m k dim, c.length = dim := by
  constructor
  · simp [updateCentroids]
  · intro c hc
    rw [updateCentroids] at hc
    obtain ⟨j, _, rfl⟩ := List.mem_map.mp hc
    simp

theorem fcmStep_ok_elim {feats : List (List ℝ)} {cfg : FCMConfig} {st st2 : LoopState}
    (h : fcmStep feats cfg st = .ok st2) :
    ∃ newMem hist,
      feats.mapM (fun f => (st.centroids.mapM (euclideanDistance f)).map
        (fun ds => fcmRow ds (2 / (cfg.fuzziness - 1)))) = .ok newMem ∧
      st2 = ⟨newMem,
        updateCentroids feats newMem cfg.fuzziness cfg.clusterCount (feats.headD []).length,
        newMem, hist, st.iteration + 1,
        (if maxChangeVal newMem st.prevMemberships < cfg.tolerance then true else false),
        maxChangeVal newMem st.prevMemberships⟩ ∧
      ((cfg.trackHistory = false ∧ hist = st.history) ∨
       (cfg.trackHistory = true ∧ ∃ J, hist = st.history ++
         [⟨st.iteration,
           updateCentroids feats newMem cfg.fuzziness cfg.clusterCount (feats.headD []).length,
           newMem, maxChangeVal newMem st.prevMemberships, J⟩])) := by
  rw [fcmStep] at h
  cases hm : feats.mapM (fun f => (st.centroids.mapM (euclideanDistance f)).map
      (fun ds => fcmRow ds (2 / (cfg.fuzziness - 1)))) with
  | error e => rw [hm] at h; simp at h
  | ok newMem =>
    rw [hm] at h
    simp only [except_bind_ok] at h
    cases hth : cfg.trackHistory with
    | false =>
      rw [hth, if_neg Bool.false_ne_true] at h
      simp only [except_bind_ok] at h
      cases h
      exact ⟨newMem, st.history, rfl, rfl, Or.inl ⟨rfl, rfl⟩⟩
    | true =>
      rw [hth, if_pos rfl] at h
      cases hJ : calculateObjectiveFunction feats
          (updateCentroids feats newMem cfg.fuzziness cfg.clusterCount (feats.headD []).length)
          newMem cfg.fuzziness with
      | error e => rw [hJ] at h; simp at h
      | ok J =>
        rw [hJ] at h
        simp only [except_map_ok, except_bind_ok] at h
        cases h
        exact ⟨newMem, _, rfl, rfl, Or.inr ⟨rfl, J, rfl⟩⟩

theorem fcmStep_ok_of_dims {feats : List (List ℝ)} {cfg : FCMConfig} {st : LoopState}
    {d : ℕ} (hfe : ∀ f ∈ feats, f.length = d) (hcent : ∀ c ∈ st.centroids, c.length = d) :
    ∃ st2, fcmStep feats cfg st = .ok st2 := by
  obtain ⟨newMem, hmem⟩ := mapM_ok_of_forall
    (fun f => (st.centroids.mapM (euclideanDistance f)).map
      (fun ds => fcmRow ds (2 / (cfg.fuzziness - 1)))) feats
    (by
      intro f hf
      obtain ⟨out, hout⟩ := mapM_ok_of_forall (euclideanDistance f) st.centroids
        (fun c hc => euclideanDistance_ok_of_length (by rw [hfe f hf, hcent c hc]))
      exact ⟨fcmRow out (2 / (cfg.fuzziness - 1)), by simp only [hout, except_map_ok]⟩)
  rw [fcmStep, hmem]
  simp only [except_bind_ok]
  cases hth : cfg.trackHistory with
  | false =>
    rw [if_neg Bool.false_ne_true]
    simp only [except_bind_ok]
    exact ⟨_, rfl⟩
  | true =>
    rw [if_pos rfl]
    have hJ : ∃ J, calculateObjectiveFunction feats
        (updateCentroids feats newMem cfg.fuzziness cfg.clusterCount (feats.headD []).length)
        newMem cfg.fuzziness = .ok J := by
      rw [calculateObjectiveFunction]
      obtain ⟨rows, hrows⟩ := mapM_ok_of_forall
        (fun fr : List ℝ × List ℝ =>
          ((updateCentroids feats newMem cfg.fuzziness cfg.clusterCount
              (feats.headD []).length).mapM (euclideanDistance fr.1)).map
            fun ds => ((ds.zip fr.2).map fun dmu => dmu.2 ^ cfg.fuzziness * dmu.1 ^ 2).sum)
        (feats.zip newMem)
        (by
          intro fr hfr
          have hf1 : fr.1 ∈ feats := (List.mem_zip hfr).1
          have hhd : (feats.headD []).length = d := by
            cases feats with
            | nil => cases hf1
            | cons a t => exact hfe a (List.mem_cons_self _ _)
          obtain ⟨ds, hds⟩ := mapM_ok_of_forall (euclideanDistance fr.1) _
            (fun c hc => euclideanDistance_ok_of_length
              (by rw [hfe fr.1 hf1, (updateCentroids_length feats newMem cfg.fuzziness
                cfg.clusterCount (feats.headD []).length).2 c hc, hhd]))
          exact ⟨((ds.zip fr.2).map fun dmu => dmu.2 ^ cfg.fuzziness * dmu.1 ^ 2).sum,
            by simp only [hds, except_map_ok]⟩)
      exact ⟨rows.sum, by rw [hrows, except_map_ok]⟩
    obtain ⟨J, hJv⟩ := hJ
    rw [hJv]
    simp only [except_map_ok, except_bind_ok]
    exact ⟨_, rfl⟩

theorem fcmLoop_inv {feats : List (List ℝ)} {cfg : FCMConfig} (P : LoopState → Prop)
    (hstep : ∀ st st2, P st → fcmStep feats cfg st = .ok st2 → P st2) :
    ∀ (fuel : ℕ) (st st2 : LoopState), P st →
      fcmLoop feats cfg fuel st = .ok st2 → P st2 := by
  intro fuel
  induction fuel with
  | zero =>
    intro st st2 hP h
    rw [fcmLoop] at h
    cases h
    exact hP
  | succ fuel ih =>
    intro st st2 hP h
    rw [fcmLoop] at h
    by_cases hc : st.converged = true
    · rw [if_pos hc] at h
      cases h
      exact hP
    · rw [if_neg hc] at h
      cases hs : fcmStep feats cfg st with
      | error e => rw [hs] at h; simp at h
      | ok st1 =>
        rw [hs] at h
        simp only [except_bind_ok] at h
        exact ih st1 st2 (hstep st st1 hP hs) h

theorem fcmLoop_ok {feats : List (List ℝ)} {cfg : FCMConfig} {d : ℕ}
    (hfe : ∀ f ∈ feats, f.length = d) (hne : feats ≠ []) :
    ∀ (fuel : ℕ) (st : LoopState), (∀ c ∈ st.centroids, c.length = d) →
      ∃ st2, fcmLoop feats cfg fuel st = .ok st2 := by
  have hhd : (feats.headD []).length = d := by
    cases feats with
    | nil => exact absurd rfl hne
    | cons a t => exact hfe a (List.mem_cons_self _ _)
  intro fuel
  induction fuel with
  | zero => intro st _; exact ⟨st, by rw [fcmLoop]⟩
  | succ fuel ih =>
    intro st hcent
    rw [fcmLoop]
    by_cases hc : st.converged = true
    · rw [if_pos hc]
      exact ⟨st, rfl⟩
    · rw [if_neg hc]
      obtain ⟨st1, hs⟩ := fcmStep_ok_of_dims hfe hcent
      obtain ⟨newMem, hist, _, hshape, _⟩ := fcmStep_ok_elim hs
      have hcent1 : ∀ c ∈ st1.centroids, c.length = d := by
        rw [hshape]
        intro c hc2
        rw [(updateCentroids_length feats newMem cfg.fuzziness cfg.clusterCount
          (feats.headD []).length).2 c hc2, hhd]
      obtain ⟨st2, h2⟩ := ih st1 hcent1
      exact ⟨st2, by rw [hs, except_bind_ok, h2]⟩

theorem fcmStep_stochastic {feats : List (List ℝ)} {cfg : FCMConfig} {st st2 : LoopState}
    (hk : 1 ≤ cfg.clusterCount)
    (h : fcmStep feats cfg st = .ok st2)
    (hinv : matrixStochastic st.memberships ∧
      (∀ s ∈ st.history, matrixStochastic s.membershipMatrix) ∧
      st.centroids.length = cfg.clusterCount) :
    matrixStochastic st2.memberships ∧
      (∀ s ∈ st2.history, matrixStochastic s.membershipMatrix) ∧
      st2.centroids.length = cfg.clusterCount := by
  obtain ⟨_, hhist, hcentlen⟩ := hinv
  obtain ⟨newMem, hist, hmm, hshape, hh⟩ := fcmStep_ok_elim h
  have hrows : matrixStochastic newMem := by
    intro row hrow
    obtain ⟨_, hmemall⟩ := mapM_ok_props _ feats newMem hmm
    obtain ⟨f, _, hfok⟩ := hmemall row hrow
    cases hds : st.centroids.mapM (euclideanDistance f) with
    | error e => rw [hds] at hfok; simp at hfok
    | ok ds =>
      rw [hds] at hfok
      simp only [except_map_ok] at hfok
      cases hfok
      obtain ⟨hlen, hdmem⟩ := mapM_ok_props _ st.centroids ds hds
      have hdne : ds ≠ [] := by
        intro hnil
        rw [hnil] at hlen
        simp only [List.length_nil] at hlen
        omega
      have hdnn : ∀ dv ∈ ds, 0 ≤ dv := by
        intro dv hdv
        obtain ⟨c, _, hok2⟩ := hdmem dv hdv
        exact euclideanDistance_ok_nonneg hok2
      exact fcmRow_props _ hdne hdnn
  rw [hshape]
  refine ⟨hrows, ?_, (updateCentroids_length feats newMem cfg.fuzziness cfg.clusterCount
    (feats.headD []).length).1⟩
  intro sshot hs
  rcases hh with ⟨_, rfl⟩ | ⟨_, J, rfl⟩
  · exact hhist sshot hs
  · rcases List.mem_append.mp hs with h1 | h1
    · exact hhist sshot h1
    · rcases List.mem_singleton.mp h1 with rfl
      exact hrows

theorem matrixNormalized_of_stochastic {mat : List (List ℝ)}
    (h : matrixStochastic mat) : matrixNormalized mat := by
  intro row hrow
  exact ⟨by rw [(h row hrow).1]; norm_num, (h row hrow).2⟩

/-- Claim C1: whenever `runFCM` returns a result (for a configuration
with at least one cluster, fuzziness above 1 and no more clusters than
points, the shuffle being a permutation of the data), every row of the
returned membership matrix, and of every history snapshot, sums to 1
within `1e-9` with all entries in `[0,1]`.  (In the exact-arithmetic
embedding the sums are exactly 1.) -/
theorem runFCM_membership_rows_normalized (data : List DataPoint) (cfg : FCMConfig)
    (shuffled : List DataPoint) (r : FCMResult)
    (hperm : data.Perm shuffled)
    (hk : 1 ≤ cfg.clusterCount) (hm : 1 < cfg.fuzziness)
    (hkn : cfg.clusterCount ≤ data.length)
    (hok : runFCM data cfg shuffled = .ok r) :
    matrixNormalized r.membershipMatrix ∧
      ∀ s ∈ r.iterationHistory, matrixNormalized s.membershipMatrix := by
  rw [runFCM] at hok
  rw [if_neg (by omega), if_neg (by omega)] at hok
  cases hloop : runFCMLoop data cfg shuffled with
  | error e => rw [hloop] at hok; simp at hok
  | ok st =>
    rw [hloop] at hok
    simp only [except_map_ok] at hok
    cases hok
    have hkr : ((cfg.clusterCount : ℝ)) ≠ 0 := Nat.cast_ne_zero.mpr (by omega)
    have hinit : matrixStochastic (data.map fun _ =>
        List.replicate cfg.clusterCount ((1:ℝ) / cfg.clusterCount)) ∧
        (∀ s ∈ ([] : List IterationState), matrixStochastic s.membershipMatrix) ∧
        (initCentroids shuffled cfg.clusterCount).length = cfg.clusterCount := by
      refine ⟨?_, ?_, ?_⟩
      · intro row hrow
        obtain ⟨_, _, rfl⟩ := List.mem_map.mp hrow
        constructor
        · rw [List.sum_replicate, nsmul_eq_mul, mul_one_div, div_self hkr]
        · intro x hx
          rw [List.eq_of_mem_replicate hx]
          constructor
          · positivity
          · rw [div_le_one (by positivity)]
            exact_mod_cast hk
      · intro s hs
        cases hs
      · rw [initCentroids, List.length_map, List.length_take]
        rw [hperm.length_eq] at hkn
        omega
    rw [runFCMLoop] at hloop
    have hP := fcmLoop_inv
      (fun st0 => matrixStochastic st0.memberships ∧
        (∀ s ∈ st0.history, matrixStochastic s.membershipMatrix) ∧
        st0.centroids.length = cfg.clusterCount)
      (fun sta stb hPa hsab => fcmStep_stochastic hk hsab hPa)
      cfg.maxIterations _ st hinit hloop
    exact ⟨matrixNormalized_of_stochastic hP.1,
      fun s hs => matrixNormalized_of_stochastic (hP.2.1 s hs)⟩

theorem runFCM_ok_of_wellformed (data : List DataPoint) (cfg : FCMConfig)
    (shuffled : List DataPoint) (d : ℕ)
    (hperm : data.Perm shuffled)
    (hdim : ∀ p ∈ data, p.features.length = d)
    (hne : data ≠ [])
    (hkn : cfg.clusterCount ≤ data.length) :
    ∃ st, runFCMLoop data cfg shuffled = .ok st ∧
      runFCM data cfg shuffled = .ok (mkFCMResult cfg st) := by
  have hfe : ∀ f ∈ data.map (fun pt => pt.features), f.length = d := by
    intro f hf
    obtain ⟨p, hp, rfl⟩ := List.mem_map.mp hf
    exact hdim p hp
  have hfne : data.map (fun pt => pt.features) ≠ [] := by
    intro h
    exact hne (List.map_eq_nil.mp h)
  have hcent0 : ∀ c ∈ initCentroids shuffled cfg.clusterCount, c.length = d := by
    intro c hc
    rw [initCentroids] at hc
    obtain ⟨p, hp, rfl⟩ := List.mem_map.mp hc
    exact hdim p (hperm.mem_iff.mpr (List.take_subset _ _ hp))
  obtain ⟨st, hloop⟩ := fcmLoop_ok hfe hfne cfg.maxIterations
    ⟨data.map fun _ => List.replicate cfg.clusterCount ((1:ℝ) / cfg.clusterCount),
     initCentroids shuffled cfg.clusterCount,
     data.map fun _ => List.replicate cfg.clusterCount ((1:ℝ) / cfg.clusterCount),
     [], 0, false, 0⟩ hcent0
  have hL : runFCMLoop data cfg shuffled = .ok st := hloop
  have hlen0 : data.length ≠ 0 := fun h => hne (List.length_eq_zero.mp h)
  refine ⟨st, hL, ?_⟩
  rw [runFCM, if_neg hlen0, if_neg (by omega), hL, except_map_ok]

/-- Witness for C1: a one-point, one-cluster run succeeds and its
membership matrix (and empty history) are row-normalized. -/
theorem runFCM_membership_rows_normalized_witness :
    ∃ r, runFCM [⟨"p0", [0], none⟩] ⟨1, 2, 1, 1/1000, false⟩ [⟨"p0", [0], none⟩] = .ok r ∧
      matrixNormalized r.membershipMatrix ∧
      ∀ s ∈ r.iterationHistory, matrixNormalized s.membershipMatrix := by
  obtain ⟨st, hL, hok⟩ := runFCM_ok_of_wellformed
    [⟨"p0", [0], none⟩] ⟨1, 2, 1, 1/1000, false⟩ [⟨"p0", [0], none⟩] 1
    (List.Perm.refl _)
    (by intro p hp; rcases List.mem_singleton.mp hp with rfl; rfl)
    (by intro h; cases h)
    (by decide)
  obtain ⟨h1, h2⟩ := runFCM_membership_rows_normalized
    [⟨"p0", [0], none⟩] ⟨1, 2, 1, 1/1000, false⟩ [⟨"p0", [0], none⟩]
    (mkFCMResult ⟨1, 2, 1, 1/1000, false⟩ st)
    (List.Perm.refl _) (by decide) (by norm_num) (by decide) hok
  exact ⟨_, hok, h1, h2⟩

theorem fcmStep_lastError {feats : List (List ℝ)} {cfg : FCMConfig} {st st2 : LoopState}
    (h : fcmStep feats cfg st = .ok st2)
    (hR : cfg.trackHistory = true →
      ((st.history.getLast?).map fun e => e.convergenceError).getD 0 = st.lastMaxChange) :
    cfg.trackHistory = true →
      ((st2.history.getLast?).map fun e => e.convergenceError).getD 0 = st2.lastMaxChange := by
  intro ht
  obtain ⟨newMem, hist, _, rfl, hh⟩ := fcmStep_ok_elim h
  rcases hh with ⟨hf, _⟩ | ⟨_, J, rfl⟩
  · rw [ht] at hf
    cases hf
  · simp [List.getLast?_concat]

/-- Claim C3 (amended): the `convergenceError` of the returned
`FCMResult` equals the last computed `maxChange` of the loop **when
`config.trackHistory` is true**; when `trackHistory` is false the field
is `0` regardless of the actual final membership change, contradicting
the claim's "regardless of whether config.trackHistory is true or
false". -/
theorem runFCM_convergenceError_final (data : List DataPoint) (cfg : FCMConfig)
    (shuffled : List DataPoint) (st : LoopState) (r : FCMResult)
    (hloop : runFCMLoop data cfg shuffled = .ok st)
    (hok : runFCM data cfg shuffled = .ok r) :
    (cfg.trackHistory = true → r.convergenceError = st.lastMaxChange) ∧
    (cfg.trackHistory = false → r.convergenceError = 0) := by
  rw [runFCM] at hok
  by_cases h1 : data.length = 0
  · rw [if_pos h1] at hok
    exact Except.noConfusion hok
  · rw [if_neg h1] at hok
    by_cases h2 : cfg.clusterCount > data.length
    · rw [if_pos h2] at hok
      exact Except.noConfusion hok
    rw [if_neg h2] at hok
    rw [hloop] at hok
    simp only [except_map_ok] at hok
    cases hok
    rw [runFCMLoop] at hloop
    have hR := fcmLoop_inv
      (fun s => cfg.trackHistory = true →
        ((s.history.getLast?).map fun e => e.convergenceError).getD 0 = s.lastMaxChange)
      (fun sa sb hPa hs => fcmStep_lastError hs hPa)
      cfg.maxIterations _ st (by intro _; simp) hloop
    constructor
    · intro ht
      simp only [mkFCMResult]
      rw [if_pos ht]
      exact hR ht
    · intro hf
      simp [mkFCMResult, hf]

/-- Witness for C3: a tracked run (`trackHistory = true`) where the
result's `convergenceError` indeed equals the loop's last
`maxChange`. -/
theorem runFCM_convergenceError_final_witness :
    ∃ st r, runFCMLoop [⟨"p0", [0], none⟩] ⟨1, 2, 1, 1/1000, true⟩ [⟨"p0", [0], none⟩] = .ok st ∧
      runFCM [⟨"p0", [0], none⟩] ⟨1, 2, 1, 1/1000, true⟩ [⟨"p0", [0], none⟩] = .ok r ∧
      r.convergenceError = st.lastMaxChange := by
  obtain ⟨st, hL, hok⟩ := runFCM_ok_of_wellformed
    [⟨"p0", [0], none⟩] ⟨1, 2, 1, 1/1000, true⟩ [⟨"p0", [0], none⟩] 1
    (List.Perm.refl _)
    (by intro p hp; rcases List.mem_singleton.mp hp with rfl; rfl)
    (by intro h; cases h)
    (by decide)
  exact ⟨st, _, hL, hok,
    (runFCM_convergenceError_final _ _ _ _ _ hL hok).1 rfl⟩

/-- Claim C6: for dimension-uniform data (with the shuffle a permutation
of the data), `runFCM` fails with an `InvalidInput`-kind error exactly
when the point list is empty or `clusterCount` exceeds the number of
points; in all other cases it raises no such error (it succeeds). -/
theorem runFCM_invalidInput_iff (data : List DataPoint) (cfg : FCMConfig)
    (shuffled : List DataPoint) (d : ℕ)
    (hperm : data.Perm shuffled)
    (hdim : ∀ p ∈ data, p.features.length = d) :
    isInvalidInputResult (runFCM data cfg shuffled) = true ↔
      data = [] ∨ data.length < cfg.clusterCount := by
  constructor
  · intro h
    by_cases h1 : data.length = 0
    · exact Or.inl (List.length_eq_zero.mp h1)
    · by_cases h2 : cfg.clusterCount > data.length
      · exact Or.inr h2
      · exfalso
        obtain ⟨st, _, hok⟩ := runFCM_ok_of_wellformed data cfg shuffled d hperm hdim
          (fun hnil => h1 (by rw [hnil]; rfl)) (by omega)
        rw [hok] at h
        simp [isInvalidInputResult] at h
  · intro h
    rcases h with rfl | hlt
    · simp [runFCM, isInvalidInputResult, FCMError.isInvalidInput]
    · rw [runFCM]
      by_cases h1 : data.length = 0
      · rw [if_pos h1]
        rfl
      · rw [if_neg h1, if_pos hlt]
        rfl

/-- Witness for C6: on the empty point list the solver reports an
`InvalidInput`-kind failure. -/
theorem runFCM_invalidInput_iff_witness :
    isInvalidInputResult (runFCM [] ⟨1, 2, 1, 1/1000, false⟩ []) = true :=
  (runFCM_invalidInput_iff [] ⟨1, 2, 1, 1/1000, false⟩ [] 0
    (List.Perm.refl _) (fun p hp => absurd hp (List.not_mem_nil p))).mpr (Or.inl rfl)

theorem fcmLoop_zero (feats : List (List ℝ)) (cfg : FCMConfig) (st : LoopState) :
    fcmLoop feats cfg 0 st = .ok st := rfl

theorem fcmLoop_one (feats : List (List ℝ)) (cfg : FCMConfig) (st : LoopState) :
    fcmLoop feats cfg 1 st =
      if st.converged = true then .ok st
      else fcmStep feats cfg st >>= fun s2 => fcmLoop feats cfg 0 s2 := rfl

theorem euclid_00 : euclideanDistance ([0] : List ℝ) [0] = .ok 0 := by
  rw [euclideanDistance, if_pos rfl]
  norm_num [List.zip_cons_cons]

theorem euclid_02 : euclideanDistance ([0] : List ℝ) [2] = .ok 2 := by
  rw [euclideanDistance, if_pos (by rfl)]
  norm_num [List.zip_cons_cons]
  rw [show (4:ℝ) = 2 ^ 2 by norm_num, Real.sqrt_sq (by norm_num : (0:ℝ) ≤ 2)]

theorem euclid_20 : euclideanDistance ([2] : List ℝ) [0] = .ok 2 := by
  rw [euclideanDistance, if_pos (by rfl)]
  norm_num [List.zip_cons_cons]
  rw [show (4:ℝ) = 2 ^ 2 by norm_num, Real.sqrt_sq (by norm_num : (0:ℝ) ≤ 2)]

theorem euclid_22 : euclideanDistance ([2] : List ℝ) [2] = .ok 0 := by
  rw [euclideanDistance, if_pos rfl]
  norm_num [List.zip_cons_cons]

theorem fcmRow_02 (p : ℝ) : fcmRow [0, 2] p = [1, 0] := by
  rw [fcmRow, fcmRawRow, if_pos (by simp)]
  norm_num [onehotFirstZero, normalizeRow]

theorem fcmRow_20 (p : ℝ) : fcmRow [2, 0] p = [0, 1] := by
  rw [fcmRow, fcmRawRow, if_pos (by simp)]
  norm_num [onehotFirstZero, normalizeRow]

theorem maxChange_cex :
    maxChangeVal [[1, 0], [0, 1]] [[1/2, 1/2], [1/2, 1/2]] = 1/2 := by
  have ha : |(1:ℝ) - 1/2| = 1/2 := by
    rw [abs_of_nonneg (by norm_num : (0:ℝ) ≤ 1 - 1/2)]
    norm_num
  have hb : |(0:ℝ) - 1/2| = 1/2 := by
    rw [abs_of_nonpos (by norm_num : (0:ℝ) - 1/2 ≤ 0)]
    norm_num
  simp only [maxChangeVal, List.zip_cons_cons, List.zip_nil_right, List.map_cons,
    List.map_nil, List.foldl_cons, List.foldl_nil, ha, hb]
  norm_num [max_def]

theorem memMatrixC3 :
    (([[0], [2]] : List (List ℝ)).mapM fun f =>
      ((([[0], [2]] : List (List ℝ)).mapM (euclideanDistance f)).map fun dists =>
        fcmRow dists (2 / (cfgC3.fuzziness - 1)))) = .ok [[1, 0], [0, 1]] := by
  have h0 : (([[0], [2]] : List (List ℝ)).mapM (euclideanDistance [0])) = .ok [0, 2] := by
    simp only [List.mapM_cons, List.mapM_nil, euclid_00, euclid_02, except_bind_ok,
      exceptPure_eq_ok]
  have h2 : (([[0], [2]] : List (List ℝ)).mapM (euclideanDistance [2])) = .ok [2, 0] := by
    simp only [List.mapM_cons, List.mapM_nil, euclid_20, euclid_22, except_bind_ok,
      exceptPure_eq_ok]
  simp only [List.mapM_cons, List.mapM_nil, euclid_00, euclid_02, euclid_20, euclid_22,
    except_map_ok, fcmRow_02, fcmRow_20, except_bind_ok, exceptPure_eq_ok]

theorem stepC3 : fcmStep [[0], [2]] cfgC3 st0C3 = .ok st1C3 := by
  have hcent : st0C3.centroids = [[0], [2]] := rfl
  have hprev : st0C3.prevMemberships = [[1/2, 1/2], [1/2, 1/2]] := rfl
  have hhist : st0C3.history = [] := rfl
  have hiter : st0C3.iteration = 0 := rfl
  have hth : cfgC3.trackHistory = false := rfl
  have htol : cfgC3.tolerance = 1/1000 := rfl
  rw [fcmStep]
  simp only [hcent, hprev, hhist, hiter, hth]
  rw [memMatrixC3, except_bind_ok]
  rw [if_neg (by decide : ¬ (false = true))]
  rw [except_bind_ok]
  rw [maxChange_cex, htol]
  rw [if_neg (by norm_num : ¬ ((1:ℝ)/2 < 1/1000))]
  rfl

theorem loopC3 : runFCMLoop dataC3 cfgC3 dataC3 = .ok st1C3 := by
  have hmi : cfgC3.maxIterations = 1 := rfl
  have hstate : (dataC3.map fun _ =>
      List.replicate cfgC3.clusterCount ((1:ℝ) / cfgC3.clusterCount)) =
      [[1/2, 1/2], [1/2, 1/2]] := by
    norm_num [dataC3, cfgC3, List.replicate]
  have hfeats : (dataC3.map fun pt => pt.features) = [[0], [2]] := rfl
  have hinit : initCentroids dataC3 cfgC3.clusterCount = [[0], [2]] := rfl
  rw [runFCMLoop]
  simp only [hfeats, hmi, hstate, hinit]
  rw [show (⟨[[1/2, 1/2], [1/2, 1/2]], [[0], [2]], [[1/2, 1/2], [1/2, 1/2]],
    [], 0, false, 0⟩ : LoopState) = st0C3 from rfl]
  rw [fcmLoop_one]
  rw [if_neg (by decide : ¬ (st0C3.converged = true))]
  rw [stepC3, except_bind_ok, fcmLoop_zero]

/-- Counterexample for C3: on a valid two-point, two-cluster run with
`trackHistory = false`, the loop's final membership change is `1/2`,
yet the returned `convergenceError` is `0` — the result does not report
the last computed `maxChange` when history tracking is off. -/
theorem runFCM_convergenceError_untracked_cex :
    ∃ st r, runFCMLoop dataC3 cfgC3 dataC3 = .ok st ∧
      runFCM dataC3 cfgC3 dataC3 = .ok r ∧
      st.lastMaxChange = 1/2 ∧ r.convergenceError = 0 ∧
      r.convergenceError ≠ st.lastMaxChange := by
  have hok : runFCM dataC3 cfgC3 dataC3 = .ok (mkFCMResult cfgC3 st1C3) := by
    rw [runFCM, if_neg (by decide), if_neg (by decide), loopC3, except_map_ok]
  have herr : (mkFCMResult cfgC3 st1C3).convergenceError = 0 := by
    simp [mkFCMResult, cfgC3]
  have hlmc : st1C3.lastMaxChange = 1/2 := rfl
  exact ⟨st1C3, mkFCMResult cfgC3 st1C3, loopC3, hok, hlmc, herr,
    by rw [herr, hlmc]; norm_num⟩
